import Mathlib

/-!
# Verification of the plain framework query builder

A shallow embedding of `src/framework/core/src/db/query/builder.cc`
(class `pf_db::query::Builder`) together with the parts of its
surroundings the claims need.  Pure functions of the source become Lean
functions; the mutable builder becomes explicit state passing on a
`BuilderState` value.  Parts of the repository that are not under `src/`
(the query grammar compiler, the `variable_t` helpers, the connection
collaborator) are modelled from the specification and carry a doc
comment saying so.
-/

namespace Plain

/-- Type tags of `pf_basic::type::variable_t`: invalid (unset), string,
integral, floating, boolean, plus the raw-SQL-expression marker
(`DB_EXPRESSION_TYPE`). -/
inductive VarType where
  | invalid
  | string
  | int32
  | number
  | bool
  | expression
  deriving DecidableEq, Repr

/-- The tagged scalar `variable_t`: a type tag plus the textual payload
(`data`).  In the source every variable stores its payload as text. -/
structure Value where
  type : VarType
  data : String
  deriving DecidableEq, Repr

/-- A string value. -/
def strV (s : String) : Value := ⟨VarType.string, s⟩

/-- An integer value; the payload is the decimal rendering, so the
integer zero carries payload "0". -/
def intV (n : Int) : Value := ⟨VarType.int32, toString n⟩

/-- A boolean value (payload "1"/"0" as the source renders booleans). -/
def boolV (b : Bool) : Value := ⟨VarType.bool, if b then "1" else "0"⟩

/-- A raw SQL expression value (`DB_EXPRESSION_TYPE`), emitted verbatim
by the grammar and never parameterized. -/
def exprV (s : String) : Value := ⟨VarType.expression, s⟩

/-- The default-constructed `variable_t`: invalid type, empty payload. -/
def invalidV : Value := ⟨VarType.invalid, ""⟩

/-- `pf_support::is_expression`: whether a value carries the
raw-expression tag. -/
def is_expression (v : Value) : Bool := v.type = VarType.expression

/-- Modelled from the spec: the type-aware emptiness check
`pf_support::empty` of `pf/support/helpers.h` (not under `src/`).  A
value is empty when its textual payload is empty; an integer zero has
payload "0" and is therefore not empty, while an unset text is. -/
def emptyV (v : Value) : Bool := v.data = ""

/-- Whether the first character list is a prefix of the second. -/
def prefMatch : List Char → List Char → Bool
  | [], _ => true
  | _ :: _, [] => false
  | a :: as, b :: bs => a == b && prefMatch as bs

/-- Whether the pattern occurs as a contiguous run of the list. -/
def hasSubL (pat : List Char) : List Char → Bool
  | [] => pat.isEmpty
  | c :: rest => prefMatch pat (c :: rest) || hasSubL pat rest

/-- Substring containment, modelling `pf_basic::string::contains`
(used for the JSON `->` column check and the decimal-point check). -/
def containsSub (s pat : String) : Bool := hasSubL pat.toList s.toList

/-- Count the positional placeholder markers `?` in a piece of SQL. -/
def countQ (s : String) : Nat := s.toList.count '?'

/-- Join a list of strings (no separator). -/
def sjoin : List String → String
  | [] => ""
  | s :: r => s ++ sjoin r

/-- Join a list of strings with a separator between consecutive items. -/
def sepJoin (sep : String) : List String → String
  | [] => ""
  | [s] => s
  | s :: r => s ++ sep ++ sepJoin sep r

/-- One decimal digit as a character. -/
def digitC (n : Nat) : Char :=
  match n with
  | 0 => '0' | 1 => '1' | 2 => '2' | 3 => '3' | 4 => '4'
  | 5 => '5' | 6 => '6' | 7 => '7' | 8 => '8' | _ => '9'

/-- Decimal rendering of a natural number (used for limit/offset). -/
def natStr (n : Nat) : String :=
  if n < 10 then String.mk [digitC n]
  else natStr (n / 10) ++ String.mk [digitC (n % 10)]
  termination_by n
  decreasing_by
    exact Nat.div_lt_self (by omega) (by omega)

/-- Decimal rendering of an integer. -/
def intStr (n : Int) : String :=
  if n < 0 then "-" ++ natStr (-n).toNat else natStr n.toNat

/-- The fixed baseline operator set `operators_`, as installed by the
builder constructor (builder.cc:29). -/
def operators_ : List String :=
  ["=", "<", ">", "<=", ">=", "<>", "!=", "<=>",
   "like", "like binary", "not like", "between", "ilike",
   "&", "|", "^", "<<", ">>",
   "rlike", "regexp", "not regexp",
   "~", "~*", "!~", "!~*", "similar to",
   "not similar to", "not ilike", "~~*", "!~~*"]

/-- Modelled from the spec: the active grammar's additional-operator
set (`grammar_->get_operators()`, query grammar not under `src/`); the
default grammar contributes no extra operators. -/
def grammar_operators : List String := []

/-- The binding store `bindings_`: one ordered bucket of values per
clause category.  The source keeps them in a string-keyed map with the
six keys below; `whereb` stands for the "where" bucket ("where" is a
Lean keyword). -/
structure BindingMap where
  select : List Value
  join : List Value
  whereb : List Value
  having : List Value
  order : List Value
  union : List Value
  deriving DecidableEq, Repr

/-- All six buckets empty, as the constructor and `clear` install. -/
def emptyBindings : BindingMap := ⟨[], [], [], [], [], []⟩

/-- Modelled from the spec: the fixed bucket order `DB_BINDING_KEYS`
(declared in `pf/db/config.h`, not under `src/`):
select, join, where, having, order, union. -/
def DB_BINDING_KEYS : List String :=
  ["select", "join", "where", "having", "order", "union"]

/-- Look one bucket up by its key (the `bindings_[name]` accesses). -/
def bucket (b : BindingMap) : String → List Value
  | "select" => b.select
  | "join" => b.join
  | "where" => b.whereb
  | "having" => b.having
  | "order" => b.order
  | "union" => b.union
  | _ => []

/-- `Builder::add_binding` (builder.cc:1105) on the binding store:
append one value to the named bucket.  An unknown bucket name raises an
assertion in the source and leaves the store unchanged, which the
fall-through case mirrors. -/
def addBinding (b : BindingMap) (v : Value) : String → BindingMap
  | "select" => { b with select := b.select ++ [v] }
  | "join" => { b with join := b.join ++ [v] }
  | "where" => { b with whereb := b.whereb ++ [v] }
  | "having" => { b with having := b.having ++ [v] }
  | "order" => { b with order := b.order ++ [v] }
  | "union" => { b with union := b.union ++ [v] }
  | _ => b

/-- `Builder::add_bindings` (builder.cc:1091): append many values in
order to the named bucket. -/
def addBindings (b : BindingMap) (vs : List Value) (ty : String) : BindingMap :=
  vs.foldl (fun acc v => addBinding acc v ty) b

/-- `Builder::get_bindings` (builder.cc:1125) on the binding store:
concatenate the buckets in the fixed `DB_BINDING_KEYS` order,
preserving per-bucket insertion order. -/
def getBindingsMap (b : BindingMap) : List Value :=
  (DB_BINDING_KEYS.map (bucket b)).flatten

/-- A having clause (same shape as a basic/raw where clause): the
entries `Builder::having` and `Builder::having_raw` push onto
`havings_`. -/
inductive HavingCl where
  | basic (column : String) (oper : Value) (value : Value) (boolean : String)
  | raw (sql : String) (boolean : String)
  deriving DecidableEq, Repr

/-- An order spec: `Builder::order_by` pushes a column/direction pair,
`Builder::order_byraw` pushes a raw fragment. -/
inductive OrderCl where
  | byCol (column : String) (direction : String)
  | raw (sql : String)
  deriving DecidableEq, Repr

/-- The non-recursive members of the builder state: `bindings_`,
`distinct_`, `limit_`, `offset_`, `union_limit_`, `union_offset_`,
`lock_`, `aggregate_`, `columns_`, `from_`, `groups_`, `havings_`,
`orders_` and `union_orders_`.  The source keeps `aggregate_` as a
string map holding the keys "function" and "columns". -/
structure Scalars where
  bindings : BindingMap
  distinct : Bool
  limit : Int
  offset : Int
  union_limit : Int
  union_offset : Int
  lock : Value
  aggregate : List (String × String)
  columns : List Value
  from_ : String
  groups : List Value
  havings : List HavingCl
  orders : List OrderCl
  union_orders : List OrderCl
  deriving DecidableEq, Repr

mutual

/-- The builder's mutable state: the scalar slots plus the three clause
lists that can embed sub-builders (`joins_`, `wheres_`, `unions_`). -/
inductive BuilderState where
  | mk (sc : Scalars) (joins : List JoinCl) (wheres : List WhereCl)
       (unions : List UnionCl)

/-- A join clause (`pf_db::query::JoinClause`): a builder
specialization scoped to one join target; its ON conditions are the
where-tree of the embedded sub-builder. -/
inductive JoinCl where
  | mk (jtype : String) (table : String) (sub : BuilderState)

/-- One where clause, mirroring the tagged `items` map the source
stores in `db_query_array_t` (type, column, operator, value, boolean,
and for in-clauses the `values` list, for sub-query clauses the owned
`query`).  Note that a between clause stores no values: its two
endpoint values go only to the binding bucket (builder.cc:549). -/
inductive WhereCl where
  | basic (column : String) (oper : Value) (value : Value) (boolean : String)
  | columnCompare (first : String) (oper : String) (second : String)
      (boolean : String)
  | raw (sql : String) (boolean : String)
  | inList (isnot : Bool) (column : String) (values : List Value)
      (boolean : String)
  | nullCl (isnot : Bool) (column : String) (boolean : String)
  | between (column : String) (boolean : String) (isnot : Bool)
  | dateBased (dtype : String) (column : String) (oper : String)
      (value : Value) (boolean : String)
  | nested (query : BuilderState) (boolean : String)
  | sub (column : String) (oper : String) (query : BuilderState)
      (boolean : String)
  | insub (isnot : Bool) (column : String) (query : BuilderState)
      (boolean : String)
  | existsCl (isnot : Bool) (query : BuilderState) (boolean : String)

/-- A union spec: the owned sub-query plus the `all` flag
(`Builder::_union`, builder.cc:833). -/
inductive UnionCl where
  | mk (all : Bool) (query : BuilderState)

end

/-- The scalar slots of a builder state. -/
def BuilderState.sc : BuilderState → Scalars
  | .mk sc _ _ _ => sc

/-- The `joins_` list of a builder state. -/
def BuilderState.joins : BuilderState → List JoinCl
  | .mk _ j _ _ => j

/-- The `wheres_` list of a builder state. -/
def BuilderState.wheres : BuilderState → List WhereCl
  | .mk _ _ w _ => w

/-- The `unions_` list of a builder state. -/
def BuilderState.unions : BuilderState → List UnionCl
  | .mk _ _ _ u => u

/-- Update the scalar slots of a builder state. -/
def withSc (s : BuilderState) (f : Scalars → Scalars) : BuilderState :=
  match s with
  | .mk sc j w u => .mk (f sc) j w u

/-- Append one where clause (`wheres_.emplace_back`). -/
def pushWhere (s : BuilderState) (w : WhereCl) : BuilderState :=
  match s with
  | .mk sc j ws u => .mk sc j (ws ++ [w]) u

/-- Append one join clause (`joins_.emplace_back`). -/
def pushJoin (s : BuilderState) (j : JoinCl) : BuilderState :=
  match s with
  | .mk sc js w u => .mk sc (js ++ [j]) w u

/-- Append one union spec (`unions_.emplace_back`). -/
def pushUnion (s : BuilderState) (u : UnionCl) : BuilderState :=
  match s with
  | .mk sc j w us => .mk sc j w (us ++ [u])

/-- The scalar slots as the constructor (builder.cc:15) installs them:
empty buckets, `distinct_ = false`, the four limit/offset slots `-1`
(absent), the lock an invalid value, and every clause list empty.  The
`from_` member is left at its default empty string. -/
def initScalars : Scalars :=
  { bindings := emptyBindings
    distinct := false
    limit := -1
    offset := -1
    union_limit := -1
    union_offset := -1
    lock := invalidV
    aggregate := []
    columns := []
    from_ := ""
    groups := []
    havings := []
    orders := []
    union_orders := [] }

/-- A freshly constructed builder (`Builder::Builder`, builder.cc:15).
The connection and grammar references are external collaborators and
are passed separately to the operations that use them. -/
def initB : BuilderState := .mk initScalars [] [] []

/-- `Builder::get_bindings` (builder.cc:1125): the flattened binding
sequence of a builder, bucket by bucket in `DB_BINDING_KEYS` order. -/
def get_bindings (s : BuilderState) : List Value :=
  getBindingsMap s.sc.bindings

/-- Append one value to a named bucket of a builder
(`Builder::add_binding`, builder.cc:1105). -/
def add_binding (s : BuilderState) (v : Value) (ty : String) : BuilderState :=
  withSc s (fun sc => { sc with bindings := addBinding sc.bindings v ty })

/-- Append many values to a named bucket of a builder
(`Builder::add_bindings`, builder.cc:1091). -/
def add_bindings (s : BuilderState) (vs : List Value) (ty : String) :
    BuilderState :=
  withSc s (fun sc => { sc with bindings := addBindings sc.bindings vs ty })

/-- `Builder::invalid_operator_and_value` (builder.cc:408): the
combination is illegal when the value is empty, the operator is in the
baseline operator set, and the operator is none of `=`, `<>`, `!=`. -/
def invalid_operator_and_value (oper val : Value) : Bool :=
  (emptyV val || val.data == "") && operators_.contains oper.data &&
    !(["=", "<>", "!="].contains oper.data)

/-- `Builder::invalid_operator` (builder.cc:415): an operator is
unsupported when it is neither in the baseline set nor in the active
grammar's additional-operator set. -/
def invalid_operator (oper : String) : Bool :=
  !(operators_.contains oper) && !(grammar_operators.contains oper)

/-- `Builder::prepare_value_and_operator` (builder.cc:396): under the
two-argument default the operator slot carries the value and `=` is
substituted; an illegal operator/value combination raises the
`AssertEx` (modelled as an error result); otherwise the pair passes
through unchanged. -/
def prepare_value_and_operator (val oper : Value) (use_default : Bool) :
    Except String (Value × Value) :=
  if use_default then .ok (oper, strV "=")
  else if invalid_operator_and_value oper val then
    .error "Illegal operator and val combination."
  else .ok (val, oper)

/-- `Builder::where_null` (builder.cc:536): push a null / not-null
clause; no binding is added. -/
def where_null (s : BuilderState) (column : String) (boolean : String)
    (isnot : Bool) : BuilderState :=
  pushWhere s (.nullCl isnot column boolean)

/-- `Builder::where` (builder.cc:249), the basic where mutator
("where" is a Lean keyword, hence the prime).  Two-argument calls are
normalized through `prepare_value_and_operator`; an unknown operator is
treated as `=` shorthand; an empty resolved value short-cuts to
`where_null`; a boolean value against a JSON `->` column is rewritten
to a raw `true`/`false` literal; otherwise a basic clause is pushed and
the value is added to the "where" bucket unless it is a raw
expression. -/
def where' (s : BuilderState) (column : String) (oper val : Value)
    (boolean : String) : Except String BuilderState :=
  let use_default := val.data == "" && boolean == "and"
  match prepare_value_and_operator val oper use_default with
  | .error e => .error e
  | .ok (v0, o0) =>
    let rv := if invalid_operator o0.data then o0 else v0
    let ro := if invalid_operator o0.data then strV "=" else o0
    if emptyV rv then
      .ok (where_null s column boolean (ro.data ≠ "="))
    else
      let rv := if containsSub column "->" && decide (rv.type = VarType.bool)
        then ⟨VarType.expression, if rv = boolV true then "true" else "false"⟩
        else rv
      let s1 := pushWhere s (.basic column ro rv boolean)
      .ok (if is_expression rv then s1 else add_binding s1 rv "where")

/-- `Builder::where_column` (builder.cc:421): compare two columns; an
unknown operator is treated as `=` shorthand; no binding is added. -/
def where_column (s : BuilderState) (first oper second boolean : String) :
    BuilderState :=
  let rsecond := if invalid_operator oper then oper else second
  let roper := if invalid_operator oper then "=" else oper
  pushWhere s (.columnCompare first roper rsecond boolean)

/-- `Builder::where_raw` (builder.cc:449): push a raw where fragment
and add all its bindings to the "where" bucket. -/
def where_raw (s : BuilderState) (sql : String) (bindings : List Value)
    (boolean : String) : BuilderState :=
  add_bindings (pushWhere s (.raw sql boolean)) bindings "where"

/-- `Builder::where_in` (builder.cc:464): push an in / not-in clause
carrying its value list, then add a binding for each value unless that
value is a raw expression. -/
def where_in (s : BuilderState) (column : String) (vals : List Value)
    (boolean : String) (isnot : Bool) : BuilderState :=
  let s1 := pushWhere s (.inList isnot column vals boolean)
  vals.foldl
    (fun acc v => if is_expression v then acc else add_binding acc v "where") s1

/-- `Builder::where_between` (builder.cc:549): push a between clause
(the clause itself stores no endpoint values) and add every given
value — raw expressions included — to the "where" bucket. -/
def where_between (s : BuilderState) (column : String) (vals : List Value)
    (boolean : String) (isnot : Bool) : BuilderState :=
  add_bindings (pushWhere s (.between column boolean isnot)) vals "where"

/-- `Builder::add_date_based_where` (builder.cc:664): push a date-part
clause and add the value to the "where" bucket unconditionally (the
source performs no raw-expression check here). -/
def add_date_based_where (s : BuilderState) (dtype column oper : String)
    (val : Value) (boolean : String) : BuilderState :=
  add_binding (pushWhere s (.dateBased dtype column oper val boolean)) val
    "where"

/-- The body shared by `where_date`, `where_day`, `where_month` and
`where_year` (builder.cc:567, 581, 595, 609): prepare the value and
operator, then delegate to `add_date_based_where` with the date
part. -/
def where_date_part (s : BuilderState) (dtype column oper : String)
    (val : Value) (boolean : String) : Except String BuilderState :=
  let use_default := val.data == "" && boolean == "and"
  (prepare_value_and_operator val (strV oper) use_default).map
    (fun vo => add_date_based_where s dtype column vo.2.data vo.1 boolean)

/-- `Builder::where_date` (builder.cc:567). -/
def where_date (s : BuilderState) (column oper : String) (val : Value)
    (boolean : String) : Except String BuilderState :=
  where_date_part s "date" column oper val boolean

/-- `Builder::where_day` (builder.cc:581). -/
def where_day (s : BuilderState) (column oper : String) (val : Value)
    (boolean : String) : Except String BuilderState :=
  where_date_part s "day" column oper val boolean

/-- `Builder::where_month` (builder.cc:595). -/
def where_month (s : BuilderState) (column oper : String) (val : Value)
    (boolean : String) : Except String BuilderState :=
  where_date_part s "month" column oper val boolean

/-- `Builder::where_year` (builder.cc:609). -/
def where_year (s : BuilderState) (column oper : String) (val : Value)
    (boolean : String) : Except String BuilderState :=
  where_date_part s "year" column oper val boolean

/-- `Builder::add_nested_where_query` (builder.cc:623): when the
populated sub-builder has at least one where clause, merge its
flattened bindings into the "where" bucket and push a nested clause
owning it; otherwise do nothing. -/
def add_nested_where_query (s : BuilderState) (query : BuilderState)
    (boolean : String) : BuilderState :=
  if query.wheres.isEmpty then s
  else
    pushWhere (add_bindings s (get_bindings query) "where")
      (.nested query boolean)

/-- `Builder::where_sub` (builder.cc:638): push a full sub-select
clause for the populated sub-builder, merging its bindings into the
"where" bucket. -/
def where_sub (s : BuilderState) (column oper : String)
    (query : BuilderState) (boolean : String) : BuilderState :=
  pushWhere (add_bindings s (get_bindings query) "where")
    (.sub column oper query boolean)

/-- `Builder::where_insub` (builder.cc:490): push an in-sub-select
clause for the populated sub-builder, merging its bindings into the
"where" bucket. -/
def where_insub (s : BuilderState) (column : String) (query : BuilderState)
    (boolean : String) (isnot : Bool) : BuilderState :=
  pushWhere (add_bindings s (get_bindings query) "where")
    (.insub isnot column query boolean)

/-- `Builder::add_where_exists_query` (builder.cc:695): push an
exists / not-exists clause owning the populated sub-builder and merge
its bindings into the "where" bucket. -/
def add_where_exists_query (s : BuilderState) (query : BuilderState)
    (boolean : String) (isnot : Bool) : BuilderState :=
  add_bindings (pushWhere s (.existsCl isnot query boolean))
    (get_bindings query) "where"

/-- `Builder::group_by` (builder.cc:709). -/
def group_by (s : BuilderState) (groups : List Value) : BuilderState :=
  withSc s (fun sc => { sc with groups := sc.groups ++ groups })

/-- `Builder::having` (builder.cc:716): like the basic where mutator
but without the null shortcut and JSON rewrite; the value goes to the
"having" bucket unless it is a raw expression. -/
def having (s : BuilderState) (column : String) (oper val : Value)
    (boolean : String) : Except String BuilderState :=
  let use_default := val.data == "" && boolean == "and"
  match prepare_value_and_operator val oper use_default with
  | .error e => .error e
  | .ok (v0, o0) =>
    let rv := if invalid_operator o0.data then o0 else v0
    let ro := if invalid_operator o0.data then strV "=" else o0
    let s1 := withSc s (fun sc =>
      { sc with havings := sc.havings ++ [.basic column ro rv boolean] })
    .ok (if is_expression rv then s1 else add_binding s1 rv "having")

/-- `Builder::having_raw` (builder.cc:749). -/
def having_raw (s : BuilderState) (sql : String) (bindings : List Value)
    (boolean : String) : BuilderState :=
  let s1 := withSc s (fun sc =>
    { sc with havings := sc.havings ++ [.raw sql boolean] })
  if bindings ≠ [] then add_bindings s1 bindings "having" else s1

/-- `Builder::order_by` (builder.cc:762): the direction is normalized
to `asc`/`desc`; the order spec goes to `orders_` while no union
exists, to `union_orders_` afterwards. -/
def order_by (s : BuilderState) (column direction : String) : BuilderState :=
  let order := OrderCl.byCol column (if direction == "asc" then "asc" else "desc")
  withSc s (fun sc =>
    if s.unions.isEmpty then { sc with orders := sc.orders ++ [order] }
    else { sc with union_orders := sc.union_orders ++ [order] })

/-- `Builder::order_byraw` (builder.cc:781): a raw order fragment,
routed like `order_by`; its bindings always go to the "order"
bucket. -/
def order_byraw (s : BuilderState) (sql : String) (bindings : List Value) :
    BuilderState :=
  let s1 := withSc s (fun sc =>
    if s.unions.isEmpty then { sc with orders := sc.orders ++ [.raw sql] }
    else { sc with union_orders := sc.union_orders ++ [.raw sql] })
  add_bindings s1 bindings "order"

/-- `Builder::offset` (builder.cc:796): the value is clamped at zero
and written to `offset_` while no union exists, to `union_offset_`
afterwards. -/
def offset (s : BuilderState) (val : Int) : BuilderState :=
  let v := max 0 val
  withSc s (fun sc =>
    if s.unions.isEmpty then { sc with offset := v }
    else { sc with union_offset := v })

/-- `Builder::limit` (builder.cc:806): negative values are ignored;
otherwise the value is written to `limit_` while no union exists, to
`union_limit_` afterwards. -/
def limit (s : BuilderState) (val : Int) : BuilderState :=
  if val ≥ 0 then
    withSc s (fun sc =>
      if s.unions.isEmpty then { sc with limit := val }
      else { sc with union_limit := val })
  else s

/-- `Builder::_union` (builder.cc:833): merge the populated
sub-query's bindings into the "union" bucket and push the union
spec. -/
def union_ (s : BuilderState) (query : BuilderState) (all : Bool) :
    BuilderState :=
  pushUnion (add_bindings s (get_bindings query) "union") (.mk all query)

/-- `Builder::select` (builder.cc:103): replace the column list; the
"select" bucket is not touched. -/
def select (s : BuilderState) (columns : List Value) : BuilderState :=
  withSc s (fun sc => { sc with columns := columns })

/-- `Builder::add_select` (builder.cc:165). -/
def add_select (s : BuilderState) (column : List String) : BuilderState :=
  withSc s (fun sc =>
    { sc with columns := sc.columns ++ column.map strV })

/-- `Builder::select_raw` (builder.cc:109): append the raw expression
as a column and add its bindings to the "select" bucket. -/
def select_raw (s : BuilderState) (expression : String)
    (bindings : List Value) : BuilderState :=
  let s1 := add_select s [expression]
  if bindings ≠ [] then add_bindings s1 bindings "select" else s1

/-- Modelled from the spec: the `from` mutator lives in `builder.h`
(not under `src/`); it records the table the query targets in
`from_`. -/
def from_table (s : BuilderState) (table : String) : BuilderState :=
  withSc s (fun sc => { sc with from_ := table })

/-- Modelled from the spec: `JoinClause::on` (`join_clause.h`, not
under `src/`) adds a column-comparison condition to the join's
where-tree, exactly as `where_column` with connector "and". -/
def onJoin (s : BuilderState) (first oper second : String) : BuilderState :=
  where_column s first oper second "and"

/-- `Builder::join` (builder.cc:194), the simple-condition variant: a
fresh `JoinClause` sub-builder receives either a `where` condition
(when `isWhere`) or an `on` column comparison; the sub-builder's
flattened bindings are merged into the "join" bucket and the join
clause is pushed. -/
def join (s : BuilderState) (table first oper second jty : String)
    (isWhere : Bool) : Except String BuilderState :=
  let sub0 := initB
  match
    (if isWhere then where' sub0 first (strV oper) (strV second) "and"
     else .ok (onJoin sub0 first oper second)) with
  | .error e => .error e
  | .ok sub =>
    .ok (pushJoin (add_bindings s (get_bindings sub) "join")
      (.mk jty table sub))

/-- `Builder::clear` (builder.cc:58): reset the bindings, flags,
limit/offset slots, lock, aggregate and every clause list.  The
`from_` member is not touched by `clear`. -/
def clear (s : BuilderState) : BuilderState :=
  match s with
  | .mk sc _ _ _ =>
    .mk { bindings := emptyBindings
          distinct := false
          limit := -1
          offset := -1
          union_limit := -1
          union_offset := -1
          lock := invalidV
          aggregate := []
          columns := []
          from_ := sc.from_
          groups := []
          havings := []
          orders := []
          union_orders := [] } [] [] []

/-- Reset one named bucket to empty (`bindings_[type] = {}`). -/
def setBucketEmpty (b : BindingMap) : String → BindingMap
  | "select" => { b with select := [] }
  | "join" => { b with join := [] }
  | "where" => { b with whereb := [] }
  | "having" => { b with having := [] }
  | "order" => { b with order := [] }
  | "union" => { b with union := [] }
  | _ => b

/-- `Builder::clean` (builder.cc:898): clear the member named by the
argument.  The source's `"union_limit"` arm resets `union_offset_`
(builder.cc:922), which is reproduced as found. -/
def clean (s : BuilderState) (exceptName : String) : BuilderState :=
  match s with
  | .mk sc j w u =>
    match exceptName with
    | "columns" => .mk { sc with columns := [] } j w u
    | "distinct" => .mk { sc with distinct := false } j w u
    | "from" => .mk { sc with from_ := "" } j w u
    | "joins" => .mk sc [] w u
    | "wheres" => .mk sc j [] u
    | "groups" => .mk { sc with groups := [] } j w u
    | "havings" => .mk { sc with havings := [] } j w u
    | "orders" => .mk { sc with orders := [] } j w u
    | "limit" => .mk { sc with limit := -1 } j w u
    | "offset" => .mk { sc with offset := -1 } j w u
    | "unions" => .mk sc j w []
    | "union_limit" => .mk { sc with union_offset := -1 } j w u
    | "union_offset" => .mk { sc with union_offset := -1 } j w u
    | "union_orders" => .mk { sc with union_orders := [] } j w u
    | "lock" => .mk { sc with lock := boolV false } j w u
    | _ => .mk sc j w u

/-- `Builder::clean_bindings` (builder.cc:936): reset every named
bucket in the list. -/
def clean_bindings (s : BuilderState) (excepts : List String) :
    BuilderState :=
  withSc s (fun sc =>
    { sc with bindings := excepts.foldl setBucketEmpty sc.bindings })

/-- `Builder::clean_bindings_expression` (builder.cc:944): drop the
raw expressions from a binding list. -/
def clean_bindings_expression (bindings : List Value) : List Value :=
  bindings.filter (fun v => !is_expression v)

/-- `Builder::set_aggregate` (builder.cc:988): record the aggregate
function and the comma-imploded column list; without group-by clauses
the orders and the "order" bucket are dropped. -/
def set_aggregate (s : BuilderState) (function : String)
    (columns : List Value) : BuilderState :=
  let colsStr := sepJoin ", " (columns.map (fun v => v.data))
  withSc s (fun sc =>
    let sc1 := { sc with
      aggregate := [("function", function), ("columns", colsStr)] }
    if sc1.groups = [] then
      { sc1 with orders := [], bindings := setBucketEmpty sc1.bindings "order" }
    else sc1)

/-- `Grammar::parameter` (the grammar contract header in the source):
a raw expression renders verbatim, anything else renders as the
placeholder marker `?`. -/
def parameter (v : Value) : String :=
  if is_expression v then v.data else "?"

/-- Modelled from the spec: identifier wrapping of the query grammar
(not under `src/`).  A raw expression passes through verbatim and `*`
is passed through; other identifiers are quoted.  The dotted-segment
splitting and alias handling of the full grammar are irrelevant to the
claims and are not reproduced. -/
def wrap (v : Value) : String :=
  if is_expression v then v.data
  else if v.data = "*" then "*"
  else "\"" ++ v.data ++ "\""

/-- Wrapping for identifiers the builder stores as plain strings. -/
def wrapS (c : String) : String := wrap (strV c)

/-- The `boolean` connector stored with a where clause. -/
def WhereCl.boolean : WhereCl → String
  | .basic _ _ _ b => b
  | .columnCompare _ _ _ b => b
  | .raw _ b => b
  | .inList _ _ _ b => b
  | .nullCl _ _ b => b
  | .between _ b _ => b
  | .dateBased _ _ _ _ b => b
  | .nested _ b => b
  | .sub _ _ _ b => b
  | .insub _ _ _ b => b
  | .existsCl _ _ b => b

/-- The `boolean` connector stored with a having clause. -/
def HavingCl.boolean : HavingCl → String
  | .basic _ _ _ b => b
  | .raw _ b => b

/-- Look a key up in the `aggregate_` string map. -/
def aggValue (ag : List (String × String)) (key : String) : String :=
  (((ag.find? (fun p => p.1 == key)).map (fun p => p.2)).getD "")

/-- Modelled from the spec: the aggregate-or-columns section of the
compiled SELECT; an aggregate replaces the column list, otherwise the
columns are wrapped and comma-joined (with `*` when no column was
chosen), after an optional `distinct`. -/
def compile_columns (sc : Scalars) : String :=
  if sc.aggregate.isEmpty then
    "select " ++ (if sc.distinct then "distinct " else "") ++
      (if sc.columns.isEmpty then "*"
       else sepJoin ", " (sc.columns.map wrap))
  else
    "select " ++ aggValue sc.aggregate "function" ++ "(" ++
      aggValue sc.aggregate "columns" ++ ") as \"aggregate\""

/-- Modelled from the spec: the from section, omitted while no table
was chosen. -/
def compile_from (sc : Scalars) : String :=
  if sc.from_ = "" then "" else " from " ++ wrapS sc.from_

/-- Modelled from the spec: the group-by section, omitted when
empty. -/
def compile_groups (sc : Scalars) : String :=
  if sc.groups.isEmpty then ""
  else " group by " ++ sepJoin ", " (sc.groups.map wrap)

/-- Modelled from the spec: one having clause. -/
def compile_having : HavingCl → String
  | .basic c o v _ => wrapS c ++ " " ++ o.data ++ " " ++ parameter v
  | .raw sql _ => sql

/-- Modelled from the spec: the having section; the first clause's
connector is compiled away. -/
def compile_havings : List HavingCl → String
  | [] => ""
  | h :: t => " having " ++ compile_having h ++
      sjoin (t.map (fun c => " " ++ HavingCl.boolean c ++ " " ++
        compile_having c))

/-- Modelled from the spec: one order spec. -/
def compile_order : OrderCl → String
  | .byCol c d => wrapS c ++ " " ++ d
  | .raw sql => sql

/-- Modelled from the spec: the order-by section, omitted when
empty. -/
def compile_orders (os : List OrderCl) : String :=
  if os.isEmpty then ""
  else " order by " ++ sepJoin ", " (os.map compile_order)

/-- Modelled from the spec: the limit section, omitted while the slot
holds its absent marker `-1`. -/
def compile_limit (n : Int) : String :=
  if n ≥ 0 then " limit " ++ intStr n else ""

/-- Modelled from the spec: the offset section, omitted while the slot
holds its absent marker `-1`. -/
def compile_offset (n : Int) : String :=
  if n ≥ 0 then " offset " ++ intStr n else ""

mutual

/-- Modelled from the spec: `Grammar::compile_select` (query grammar
not under `src/`): the sections in the fixed order aggregate-or-columns,
from, joins, wheres, groups, havings, orders, limit, offset, followed
by the unions with their own trailing order/limit/offset when any union
exists. -/
def compile_select : BuilderState → String
  | .mk sc joins wheres unions =>
    compile_columns sc ++ compile_from sc ++ compile_joins joins ++
    compile_wheres wheres ++ compile_groups sc ++
    compile_havings sc.havings ++ compile_orders sc.orders ++
    compile_limit sc.limit ++ compile_offset sc.offset ++
    (if unions.isEmpty then ""
     else compile_unions unions ++ compile_orders sc.union_orders ++
       compile_limit sc.union_limit ++ compile_offset sc.union_offset)
  termination_by structural s => s

/-- Modelled from the spec: the join sections in order. -/
def compile_joins : List JoinCl → String
  | [] => ""
  | j :: js => compile_join j ++ compile_joins js
  termination_by structural l => l

/-- Modelled from the spec: one join clause; its embedded sub-builder's
where-tree renders as the ON conditions. -/
def compile_join : JoinCl → String
  | .mk jty table (.mk _ _ w2 _) =>
    " " ++ jty ++ " join " ++ wrapS table ++
    (if w2.isEmpty then "" else " on " ++ compile_wheres_inner w2)
  termination_by structural j => j

/-- Modelled from the spec: the where section, omitted when empty. -/
def compile_wheres : List WhereCl → String
  | [] => ""
  | w :: t => " where " ++ compile_where w ++ compile_rest t
  termination_by structural l => l

/-- Modelled from the spec: a where clause list; the first clause's
connector is compiled away. -/
def compile_wheres_inner : List WhereCl → String
  | [] => ""
  | w :: t => compile_where w ++ compile_rest t
  termination_by structural l => l

/-- Modelled from the spec: the non-first where clauses, each preceded
by its own connector. -/
def compile_rest : List WhereCl → String
  | [] => ""
  | w :: t => " " ++ WhereCl.boolean w ++ " " ++ compile_where w ++
      compile_rest t
  termination_by structural l => l

/-- Modelled from the spec: one where clause, mirroring the variants
1:1; an in / not-in clause with an empty value list compiles to the
statically-false / statically-true fallback literal. -/
def compile_where : WhereCl → String
  | .basic c o v _ => wrapS c ++ " " ++ o.data ++ " " ++ parameter v
  | .columnCompare f o s2 _ => wrapS f ++ " " ++ o ++ " " ++ wrapS s2
  | .raw sql _ => sql
  | .inList isnot c vals _ =>
    if vals.isEmpty then (if isnot then "1 = 1" else "0 = 1")
    else wrapS c ++ (if isnot then " not in (" else " in (") ++
      sepJoin ", " (vals.map parameter) ++ ")"
  | .nullCl isnot c _ =>
    wrapS c ++ (if isnot then " is not null" else " is null")
  | .between c _ isnot =>
    wrapS c ++ (if isnot then " not between ? and ?" else " between ? and ?")
  | .dateBased dt c o v _ =>
    dt ++ "(" ++ wrapS c ++ ") " ++ o ++ " " ++ parameter v
  | .nested (.mk _ _ ws _) _ => "(" ++ compile_wheres_inner ws ++ ")"
  | .sub c o q _ => wrapS c ++ " " ++ o ++ " (" ++ compile_select q ++ ")"
  | .insub isnot c q _ =>
    wrapS c ++ (if isnot then " not in (" else " in (") ++
      compile_select q ++ ")"
  | .existsCl isnot q _ =>
    (if isnot then "not exists (" else "exists (") ++ compile_select q ++ ")"
  termination_by structural w => w

/-- Modelled from the spec: the union sections in order. -/
def compile_unions : List UnionCl → String
  | [] => ""
  | u :: us => compile_union u ++ compile_unions us
  termination_by structural l => l

/-- Modelled from the spec: one union spec. -/
def compile_union : UnionCl → String
  | .mk all q => (if all then " union all " else " union ") ++
      compile_select q
  termination_by structural u => u

end

/-- `Builder::to_sql` (builder.cc:845): delegate to the grammar's
select compiler. -/
def to_sql (s : BuilderState) : String := compile_select s

/-- One fetched row: column name to value, in fetch order. -/
abbrev FetchRow := List (String × Value)

/-- A fetched result set (`db_fetch_array_t`), as the rows it holds. -/
abbrev Fetch := List FetchRow

/-- Modelled from the spec: the execution collaborator's `select`
entry point (`ConnectionInterface`, not under `src/`): it consumes the
compiled SQL text and the ordered binding sequence and yields rows. -/
abbrev Conn := String → List Value → Fetch

/-- `db_fetch_array_t::get(row, column)`: the named column of the
indexed row, when present. -/
def fetch_get (r : Fetch) (idx : Nat) (col : String) : Option Value :=
  (r[idx]?).bind
    (fun row => (row.find? (fun p => p.1 == col)).map (fun p => p.2))

/-- `Builder::run_select` (builder.cc:875): hand the compiled SQL and
the flattened bindings to the connection. -/
def run_select (s : BuilderState) (conn : Conn) : Fetch :=
  conn (to_sql s) (get_bindings s)

/-- `Builder::get` (builder.cc:864): remember the stored column list,
substitute the argument columns only when the stored list is empty, run
the select, then restore the stored list. -/
def get (s : BuilderState) (columns : List Value) (conn : Conn) :
    Fetch × BuilderState :=
  let original := s.sc.columns
  let s1 := if original.isEmpty then select s columns else s
  let result := run_select s1 conn
  (result, select s1 original)

/-- Modelled from the spec: `Builder::new_query` (`builder.h`, not
under `src/`): a fresh builder sharing only the grammar/connection
binding, none of the clause state. -/
def new_query (_s : BuilderState) : BuilderState := initB

/-- `Builder::aggregate` (builder.cc:952): on a new query, strip the
column list and the "select" bucket, set the aggregate, run the select
and extract the `aggregate` column of the first row; without a row the
default-constructed (invalid, empty) value is returned. -/
def aggregate (s : BuilderState) (function : String) (columns : List Value)
    (conn : Conn) : Value :=
  let query := new_query s
  let query := clean query "columns"
  let query := clean_bindings query ["select"]
  let query := set_aggregate query function columns
  let results := (get query columns conn).1
  match fetch_get results 0 "aggregate" with
  | some v => v
  | none => invalidV

/-- Modelled from the spec: `variable_t::get<int32_t>` (the variable
header is not under `src/`): textual-to-integer conversion with `atoi`
semantics on numeric payloads, 0 for an empty payload. -/
def variable_get_int (v : Value) : Int := (v.data.toInt?).getD 0

/-- `Builder::numeric_aggregate` (builder.cc:969): 0 without a result;
a non-string result passes through; a textual result is coerced to a
floating value when it contains a decimal point (modelled as retagging
the payload) and to an integer otherwise. -/
def numeric_aggregate (s : BuilderState) (function : String)
    (columns : List Value) (conn : Conn) : Value :=
  let result := aggregate s function columns conn
  if emptyV result then intV 0
  else if result.type ≠ VarType.string then result
  else if containsSub result.data "." then ⟨VarType.number, result.data⟩
  else intV (variable_get_int result)

/-- Modelled from the spec: `Grammar::compile_insert` (query grammar
not under `src/`): `insert into "t" ("c1", "c2") values (?, ?), (?, ?)`
for a batch of records, one parenthesized placeholder group per record,
with the column list taken from the first record.  A record is an
association list in the iteration order of the source's string map. -/
def compile_insert (s : BuilderState) (vals : List FetchRow) : String :=
  match vals with
  | [] => ""
  | r0 :: _ =>
    "insert into " ++ wrapS s.sc.from_ ++ " (" ++
    sepJoin ", " (r0.map (fun p => wrapS p.1)) ++ ") values " ++
    sepJoin ", " (vals.map (fun r =>
      "(" ++ sepJoin ", " (r.map (fun p => parameter p.2)) ++ ")"))

/-- The binding list `Builder::insert` (builder.cc:1001) hands to the
connection: the values of the FIRST record only (`vals[0]`), with raw
expressions dropped. -/
def insert_bindings (vals : List FetchRow) : List Value :=
  match vals with
  | [] => []
  | r0 :: _ => clean_bindings_expression (r0.map (fun p => p.2))

/-- `Builder::insert` (builder.cc:1001): an empty batch succeeds
without touching the connection; otherwise the compiled multi-row
insert and the (first-record) bindings go to the connection's `insert`
entry point. -/
def insert (s : BuilderState) (vals : List FetchRow)
    (connInsert : String → List Value → Bool) : Bool :=
  if vals.isEmpty then true
  else connInsert (compile_insert s vals) (insert_bindings vals)

/-- The fluent mutator calls a caller can make, as an operation
language; callback-populated sub-builders appear as the nested
operation list that populates them. -/
inductive Op where
  | select (cols : List Value)
  | selectRaw (expression : String) (bindings : List Value)
  | fromTable (table : String)
  | joinOp (table first oper second jty : String) (isWhere : Bool)
  | whereBasic (column : String) (oper val : Value) (boolean : String)
  | whereColumnOp (first oper second boolean : String)
  | whereRawOp (sql : String) (bindings : List Value) (boolean : String)
  | whereInOp (column : String) (vals : List Value) (boolean : String)
      (isnot : Bool)
  | whereNullOp (column boolean : String) (isnot : Bool)
  | whereBetweenOp (column : String) (vals : List Value) (boolean : String)
      (isnot : Bool)
  | whereDatePartOp (dtype column : String) (oper : String) (val : Value)
      (boolean : String)
  | whereNestedOp (ops : List Op) (boolean : String)
  | whereSubOp (column oper : String) (ops : List Op) (boolean : String)
  | whereInsubOp (column : String) (ops : List Op) (boolean : String)
      (isnot : Bool)
  | whereExistsOp (ops : List Op) (boolean : String) (isnot : Bool)
  | groupByOp (groups : List Value)
  | havingOp (column : String) (oper val : Value) (boolean : String)
  | havingRawOp (sql : String) (bindings : List Value) (boolean : String)
  | orderByOp (column direction : String)
  | orderByRawOp (sql : String) (bindings : List Value)
  | limitOp (n : Int)
  | offsetOp (n : Int)
  | unionOp (ops : List Op) (all : Bool)
  | clearOp
  | setAggregateOp (function : String) (cols : List Value)

mutual

/-- One well-formed mutator step from `s` to `s'`: the step's result is
the corresponding builder mutator applied to `s`, under the side
conditions that keep the compiled SQL's placeholders in lock-step with
the binding buckets — identifiers, operators and connectors free of the
`?` character, raw fragments carrying exactly as many `?` markers as
bindings, between clauses given exactly two endpoint values, date-part
values not raw, raw order fragments bindings-free once a union exists,
the "select" bucket empty when the column list is replaced, and
callback-populated sub-builders populated by well-formed runs (a
nested-where sub-builder using only its "where" bucket). -/
def WFStep (s : BuilderState) : Op → BuilderState → Prop
  | .select cols, s' =>
      s.sc.bindings.select = [] ∧ (∀ v ∈ cols, countQ v.data = 0) ∧
      s' = select s cols
  | .selectRaw e bnd, s' =>
      s.sc.aggregate = [] ∧ countQ e = bnd.length ∧ s' = select_raw s e bnd
  | .fromTable t, s' => countQ t = 0 ∧ s' = from_table s t
  | .joinOp table first oper second jty isWhere, s' =>
      countQ jty = 0 ∧ countQ table = 0 ∧ countQ first = 0 ∧
      countQ oper = 0 ∧ countQ second = 0 ∧
      join s table first oper second jty isWhere = .ok s'
  | .whereBasic c o v b, s' =>
      countQ c = 0 ∧ countQ o.data = 0 ∧ countQ b = 0 ∧
      (is_expression v = true → countQ v.data = 0) ∧
      where' s c o v b = .ok s'
  | .whereColumnOp f o s2 b, s' =>
      countQ f = 0 ∧ countQ o = 0 ∧ countQ s2 = 0 ∧ countQ b = 0 ∧
      s' = where_column s f o s2 b
  | .whereRawOp sql bnd b, s' =>
      countQ sql = bnd.length ∧ countQ b = 0 ∧ s' = where_raw s sql bnd b
  | .whereInOp c vals b n, s' =>
      countQ c = 0 ∧ countQ b = 0 ∧
      (∀ v ∈ vals, is_expression v = true → countQ v.data = 0) ∧
      s' = where_in s c vals b n
  | .whereNullOp c b n, s' =>
      countQ c = 0 ∧ countQ b = 0 ∧ s' = where_null s c b n
  | .whereBetweenOp c vals b n, s' =>
      vals.length = 2 ∧ countQ c = 0 ∧ countQ b = 0 ∧
      s' = where_between s c vals b n
  | .whereDatePartOp dt c o v b, s' =>
      countQ dt = 0 ∧ countQ c = 0 ∧ countQ o = 0 ∧ countQ b = 0 ∧
      is_expression v = false ∧ where_date_part s dt c o v b = .ok s'
  | .whereNestedOp ops b, s' =>
      countQ b = 0 ∧
      ∃ sub, WFRunL initB ops sub ∧
        sub.sc.bindings.select = [] ∧ sub.sc.bindings.join = [] ∧
        sub.sc.bindings.having = [] ∧ sub.sc.bindings.order = [] ∧
        sub.sc.bindings.union = [] ∧
        s' = add_nested_where_query s sub b
  | .whereSubOp c o ops b, s' =>
      countQ c = 0 ∧ countQ o = 0 ∧ countQ b = 0 ∧
      ∃ sub, WFRunL initB ops sub ∧ s' = where_sub s c o sub b
  | .whereInsubOp c ops b n, s' =>
      countQ c = 0 ∧ countQ b = 0 ∧
      ∃ sub, WFRunL initB ops sub ∧ s' = where_insub s c sub b n
  | .whereExistsOp ops b n, s' =>
      countQ b = 0 ∧
      ∃ sub, WFRunL initB ops sub ∧ s' = add_where_exists_query s sub b n
  | .groupByOp g, s' =>
      (∀ v ∈ g, countQ v.data = 0) ∧ s' = group_by s g
  | .havingOp c o v b, s' =>
      countQ c = 0 ∧ countQ o.data = 0 ∧ countQ b = 0 ∧
      (is_expression v = true → countQ v.data = 0) ∧
      having s c o v b = .ok s'
  | .havingRawOp sql bnd b, s' =>
      countQ sql = bnd.length ∧ countQ b = 0 ∧ s' = having_raw s sql bnd b
  | .orderByOp c d, s' => countQ c = 0 ∧ s' = order_by s c d
  | .orderByRawOp sql bnd, s' =>
      countQ sql = bnd.length ∧
      (s.unions.isEmpty = false → bnd = [] ∧ countQ sql = 0) ∧
      s' = order_byraw s sql bnd
  | .limitOp n, s' => s' = limit s n
  | .offsetOp n, s' => s' = offset s n
  | .unionOp ops all, s' =>
      ∃ sub, WFRunL initB ops sub ∧ s' = union_ s sub all
  | .clearOp, s' => s' = clear s
  | .setAggregateOp f cols, s' =>
      s.sc.bindings.select = [] ∧ countQ f = 0 ∧
      (∀ v ∈ cols, countQ v.data = 0) ∧ s' = set_aggregate s f cols

/-- A well-formed run: a sequence of well-formed mutator steps leading
from `s` to `s'`. -/
def WFRunL (s : BuilderState) : List Op → BuilderState → Prop
  | [], s' => s' = s
  | op :: ops, s'' => ∃ s', WFStep s op s' ∧ WFRunL s' ops s''

end

/-- The binding/placeholder correspondence invariant: section by
section, the number of placeholder markers the grammar emits equals the
length of the matching binding bucket (the union-order section and the
sections that never parameterize carry none), so the concatenated
buckets line up with the placeholders of the full compiled SELECT. -/
structure Inv (s : BuilderState) : Prop where
  sel : countQ (compile_columns s.sc) = s.sc.bindings.select.length
  jn : countQ (compile_joins s.joins) = s.sc.bindings.join.length
  whr : countQ (compile_wheres s.wheres) = s.sc.bindings.whereb.length
  hav : countQ (compile_havings s.sc.havings) = s.sc.bindings.having.length
  ord : countQ (compile_orders s.sc.orders) = s.sc.bindings.order.length
  uord : countQ (compile_orders s.sc.union_orders) = 0
  uni : countQ (compile_unions s.unions) = s.sc.bindings.union.length
  frm : countQ (compile_from s.sc) = 0
  grp : countQ (compile_groups s.sc) = 0


/-- A concrete builder used as a sanity witness: from "users", then
where age > 18. -/
def usersAgeState : BuilderState :=
  ((where' (from_table initB "users") "age" (strV ">") (intV 18)
    "and").toOption).getD initB

/-- A concrete builder holding one union clause, used as a sanity
witness for the union routing behaviour. -/
def oneUnionState : BuilderState := union_ initB initB false

/-! ## Helper lemmas -/

theorem countQ_append (a b : String) : countQ (a ++ b) = countQ a + countQ b := by
  simp [countQ, String.toList, String.data_append, List.count_append]

theorem countQ_sjoin (l : List String) :
    countQ (sjoin l) = (l.map countQ).sum := by
  induction l with
  | nil => rfl
  | cons s r ih => simp [sjoin, countQ_append, ih]

theorem countQ_sepJoin (sep : String) (h : countQ sep = 0) (l : List String) :
    countQ (sepJoin sep l) = (l.map countQ).sum := by
  induction l with
  | nil => rfl
  | cons s r ih =>
    cases r with
    | nil => simp [sepJoin]
    | cons t u =>
      show countQ (s ++ sep ++ sepJoin sep (t :: u)) = _
      rw [countQ_append, countQ_append, h, ih]
      simp [Nat.add_assoc]

theorem digitC_ne_q (n : Nat) : digitC n ≠ '?' := by
  unfold digitC
  split <;> decide

theorem countQ_digitChar (n : Nat) : countQ (String.mk [digitC n]) = 0 := by
  simp [countQ, String.toList, List.count_cons, digitC_ne_q n]

theorem countQ_natStr (n : Nat) : countQ (natStr n) = 0 := by
  induction n using Nat.strong_induction_on with
  | _ n ih =>
    unfold natStr
    split
    · exact countQ_digitChar n
    · rw [countQ_append]
      have h1 := ih (n / 10) (Nat.div_lt_self (by omega) (by omega))
      have h2 := countQ_digitChar (n % 10)
      omega

theorem countQ_intStr (n : Int) : countQ (intStr n) = 0 := by
  unfold intStr
  split
  · rw [countQ_append, countQ_natStr]; rfl
  · exact countQ_natStr _


theorem countQ_wrap (v : Value) : countQ (wrap v) = countQ v.data := by
  unfold wrap
  split
  · rfl
  · split
    · rename_i h1 h2
      rw [h2]
    · rw [countQ_append, countQ_append]
      simp [countQ]

theorem countQ_wrapS (c : String) : countQ (wrapS c) = countQ c := by
  unfold wrapS
  rw [countQ_wrap]
  rfl

theorem countQ_parameter (v : Value) :
    countQ (parameter v) = if is_expression v then countQ v.data else 1 := by
  unfold parameter
  split <;> simp_all [countQ]

theorem countQ_compile_limit (n : Int) : countQ (compile_limit n) = 0 := by
  unfold compile_limit
  split
  · rw [countQ_append, countQ_intStr]
    rfl
  · rfl

theorem countQ_compile_offset (n : Int) : countQ (compile_offset n) = 0 := by
  unfold compile_offset
  split
  · rw [countQ_append, countQ_intStr]
    rfl
  · rfl

theorem countQ_compile_orders (os : List OrderCl) :
    countQ (compile_orders os) =
      (os.map (fun o => countQ (compile_order o))).sum := by
  unfold compile_orders
  split
  · rename_i h
    rw [List.isEmpty_iff] at h
    subst h
    rfl
  · rw [countQ_append, countQ_sepJoin ", " (by decide), List.map_map]
    have h0 : countQ " order by " = 0 := by decide
    rw [h0, Nat.zero_add]
    rfl

theorem get_bindings_eq (s : BuilderState) :
    get_bindings s =
      s.sc.bindings.select ++ s.sc.bindings.join ++ s.sc.bindings.whereb ++
      s.sc.bindings.having ++ s.sc.bindings.order ++ s.sc.bindings.union := by
  simp [get_bindings, getBindingsMap, DB_BINDING_KEYS, bucket]

theorem addBindings_select (vs : List Value) (b : BindingMap) :
    addBindings b vs "select" = { b with select := b.select ++ vs } := by
  induction vs generalizing b with
  | nil => simp [addBindings]
  | cons v t ih =>
    show addBindings (addBinding b v "select") t "select" = _
    rw [ih]
    simp [addBinding]

theorem addBindings_join (vs : List Value) (b : BindingMap) :
    addBindings b vs "join" = { b with join := b.join ++ vs } := by
  induction vs generalizing b with
  | nil => simp [addBindings]
  | cons v t ih =>
    show addBindings (addBinding b v "join") t "join" = _
    rw [ih]
    simp [addBinding]

theorem addBindings_where (vs : List Value) (b : BindingMap) :
    addBindings b vs "where" = { b with whereb := b.whereb ++ vs } := by
  induction vs generalizing b with
  | nil => simp [addBindings]
  | cons v t ih =>
    show addBindings (addBinding b v "where") t "where" = _
    rw [ih]
    simp [addBinding]

theorem addBindings_having (vs : List Value) (b : BindingMap) :
    addBindings b vs "having" = { b with having := b.having ++ vs } := by
  induction vs generalizing b with
  | nil => simp [addBindings]
  | cons v t ih =>
    show addBindings (addBinding b v "having") t "having" = _
    rw [ih]
    simp [addBinding]

theorem addBindings_order (vs : List Value) (b : BindingMap) :
    addBindings b vs "order" = { b with order := b.order ++ vs } := by
  induction vs generalizing b with
  | nil => simp [addBindings]
  | cons v t ih =>
    show addBindings (addBinding b v "order") t "order" = _
    rw [ih]
    simp [addBinding]

theorem addBindings_union (vs : List Value) (b : BindingMap) :
    addBindings b vs "union" = { b with union := b.union ++ vs } := by
  induction vs generalizing b with
  | nil => simp [addBindings]
  | cons v t ih =>
    show addBindings (addBinding b v "union") t "union" = _
    rw [ih]
    simp [addBinding]

theorem compile_rest_append (l : List WhereCl) (w : WhereCl) :
    compile_rest (l ++ [w]) =
      compile_rest l ++ (" " ++ WhereCl.boolean w ++ " " ++ compile_where w) := by
  induction l with
  | nil =>
    show " " ++ WhereCl.boolean w ++ " " ++ compile_where w ++ "" =
      "" ++ (" " ++ WhereCl.boolean w ++ " " ++ compile_where w)
    rw [String.append_empty, String.empty_append]
  | cons h t ih =>
    show " " ++ WhereCl.boolean h ++ " " ++ compile_where h ++
      compile_rest (t ++ [w]) =
      (" " ++ WhereCl.boolean h ++ " " ++ compile_where h ++ compile_rest t) ++
        (" " ++ WhereCl.boolean w ++ " " ++ compile_where w)
    rw [ih]
    simp [String.append_assoc]

theorem countQ_compile_wheres_append (l : List WhereCl) (w : WhereCl)
    (hb : countQ (WhereCl.boolean w) = 0) :
    countQ (compile_wheres (l ++ [w])) =
      countQ (compile_wheres l) + countQ (compile_where w) := by
  cases l with
  | nil =>
    show countQ (" where " ++ compile_where w ++ compile_rest []) = _
    rw [countQ_append, countQ_append]
    have h1 : countQ " where " = 0 := by decide
    have h2 : countQ (compile_rest []) = 0 := by decide
    have h3 : countQ (compile_wheres []) = 0 := by decide
    omega
  | cons h t =>
    show countQ (" where " ++ compile_where h ++ compile_rest (t ++ [w])) = _
    rw [compile_rest_append]
    show _ = countQ (" where " ++ compile_where h ++ compile_rest t) + _
    simp only [countQ_append, hb]
    have h1 : countQ " " = 0 := by decide
    omega

theorem countQ_compile_wheres_inner (ws : List WhereCl) :
    countQ (compile_wheres_inner ws) = countQ (compile_wheres ws) := by
  cases ws with
  | nil => rfl
  | cons h t =>
    show countQ (compile_where h ++ compile_rest t) =
      countQ (" where " ++ compile_where h ++ compile_rest t)
    simp only [countQ_append]
    have h1 : countQ " where " = 0 := by decide
    omega

theorem sjoin_append (a b : List String) :
    sjoin (a ++ b) = sjoin a ++ sjoin b := by
  induction a with
  | nil =>
    show sjoin b = "" ++ sjoin b
    rw [String.empty_append]
  | cons x xs ihx =>
    show x ++ sjoin (xs ++ b) = x ++ sjoin xs ++ sjoin b
    rw [ihx, String.append_assoc]

theorem countQ_compile_havings_append (l : List HavingCl) (h : HavingCl)
    (hb : countQ (HavingCl.boolean h) = 0) :
    countQ (compile_havings (l ++ [h])) =
      countQ (compile_havings l) + countQ (compile_having h) := by
  cases l with
  | nil =>
    show countQ (" having " ++ compile_having h ++ sjoin []) = _
    rw [countQ_append, countQ_append]
    have h1 : countQ " having " = 0 := by decide
    have h2 : countQ (sjoin []) = 0 := by decide
    have h3 : countQ (compile_havings []) = 0 := by decide
    omega
  | cons h0 t =>
    show countQ (" having " ++ compile_having h0 ++
      sjoin ((t ++ [h]).map (fun c => " " ++ HavingCl.boolean c ++ " " ++
        compile_having c))) = _
    rw [List.map_append, List.map_singleton, sjoin_append]
    show _ = countQ (" having " ++ compile_having h0 ++
      sjoin (t.map (fun c => " " ++ HavingCl.boolean c ++ " " ++
        compile_having c))) + _
    simp only [countQ_append, countQ_sjoin, sjoin, hb]
    have h1 : countQ " " = 0 := by decide
    have h2 : countQ "" = 0 := by decide
    omega

theorem compile_joins_append (l : List JoinCl) (j : JoinCl) :
    compile_joins (l ++ [j]) = compile_joins l ++ compile_join j := by
  induction l with
  | nil =>
    show compile_join j ++ compile_joins [] = _
    show compile_join j ++ "" = "" ++ compile_join j
    rw [String.append_empty, String.empty_append]
  | cons h t ih =>
    show compile_join h ++ compile_joins (t ++ [j]) =
      (compile_join h ++ compile_joins t) ++ compile_join j
    rw [ih]
    simp [String.append_assoc]

theorem compile_unions_append (l : List UnionCl) (u : UnionCl) :
    compile_unions (l ++ [u]) = compile_unions l ++ compile_union u := by
  induction l with
  | nil =>
    show compile_union u ++ compile_unions [] = _
    show compile_union u ++ "" = "" ++ compile_union u
    rw [String.append_empty, String.empty_append]
  | cons h t ih =>
    show compile_union h ++ compile_unions (t ++ [u]) =
      (compile_union h ++ compile_unions t) ++ compile_union u
    rw [ih]
    simp [String.append_assoc]

theorem countQ_compile_columns_noagg (sc : Scalars)
    (h : sc.aggregate = []) :
    countQ (compile_columns sc) =
      (sc.columns.map (fun v => countQ v.data)).sum := by
  unfold compile_columns
  rw [h]
  simp only [List.isEmpty_nil, if_true]
  rw [countQ_append, countQ_append]
  have h1 : countQ "select " = 0 := by decide
  have h2 : countQ (if sc.distinct then "distinct " else "") = 0 := by
    split <;> decide
  rw [h1, h2]
  split
  · rename_i hc
    rw [List.isEmpty_iff] at hc
    rw [hc]
    rfl
  · rw [countQ_sepJoin ", " (by decide), List.map_map]
    have : (countQ ∘ wrap) = (fun v => countQ v.data) := by
      funext v
      exact countQ_wrap v
    rw [this]
    omega


theorem countQ_cw_basic (c : String) (o v : Value) (b : String) :
    countQ (compile_where (.basic c o v b)) =
      countQ c + countQ o.data + countQ (parameter v) := by
  show countQ (wrapS c ++ " " ++ o.data ++ " " ++ parameter v) = _
  simp only [countQ_append, countQ_wrapS]
  have h1 : countQ " " = 0 := by decide
  omega

theorem countQ_cw_columnCompare (f o s2 b : String) :
    countQ (compile_where (.columnCompare f o s2 b)) =
      countQ f + countQ o + countQ s2 := by
  show countQ (wrapS f ++ " " ++ o ++ " " ++ wrapS s2) = _
  simp only [countQ_append, countQ_wrapS]
  have h1 : countQ " " = 0 := by decide
  omega

theorem countQ_cw_raw (sql b : String) :
    countQ (compile_where (.raw sql b)) = countQ sql := rfl

theorem countQ_cw_inList_nil (n : Bool) (c b : String) :
    countQ (compile_where (.inList n c [] b)) = 0 := by
  cases n <;> rfl

theorem countQ_cw_inList (n : Bool) (c : String) (vals : List Value)
    (b : String) (hne : vals ≠ []) :
    countQ (compile_where (.inList n c vals b)) =
      countQ c + (vals.map (fun v => countQ (parameter v))).sum := by
  show countQ (if vals.isEmpty then _ else _) = _
  rw [if_neg (by simpa using hne)]
  simp only [countQ_append, countQ_wrapS,
    countQ_sepJoin ", " (by decide), List.map_map]
  have h1 : countQ (if n then " not in (" else " in (") = 0 := by
    cases n <;> decide
  have h2 : countQ ")" = 0 := by decide
  rw [h1, h2]
  have h3 : (List.map (countQ ∘ parameter) vals).sum =
      (List.map (fun v => countQ (parameter v)) vals).sum := rfl
  rw [h3]
  omega

theorem countQ_cw_nullCl (n : Bool) (c b : String) :
    countQ (compile_where (.nullCl n c b)) = countQ c := by
  show countQ (wrapS c ++ (if n then " is not null" else " is null")) = _
  rw [countQ_append, countQ_wrapS]
  have h1 : countQ (if n then " is not null" else " is null") = 0 := by
    cases n <;> decide
  omega

theorem countQ_cw_between (c b : String) (n : Bool) :
    countQ (compile_where (.between c b n)) = countQ c + 2 := by
  show countQ (wrapS c ++
    (if n then " not between ? and ?" else " between ? and ?")) = _
  rw [countQ_append, countQ_wrapS]
  have h1 : countQ (if n then " not between ? and ?" else " between ? and ?")
      = 2 := by
    cases n <;> decide
  omega

theorem countQ_cw_dateBased (dt c o : String) (v : Value) (b : String) :
    countQ (compile_where (.dateBased dt c o v b)) =
      countQ dt + countQ c + countQ o + countQ (parameter v) := by
  show countQ (dt ++ "(" ++ wrapS c ++ ") " ++ o ++ " " ++ parameter v) = _
  simp only [countQ_append, countQ_wrapS]
  have h1 : countQ "(" = 0 := by decide
  have h2 : countQ ") " = 0 := by decide
  have h3 : countQ " " = 0 := by decide
  omega

theorem countQ_cw_nested (q : BuilderState) (b : String) :
    countQ (compile_where (.nested q b)) = countQ (compile_wheres q.wheres) := by
  cases q with
  | mk sc j w u =>
    show countQ ("(" ++ compile_wheres_inner w ++ ")") = _
    simp only [countQ_append, countQ_compile_wheres_inner]
    have h1 : countQ "(" = 0 := by decide
    have h2 : countQ ")" = 0 := by decide
    show _ = countQ (compile_wheres w)
    omega

theorem countQ_cw_sub (c o : String) (q : BuilderState) (b : String) :
    countQ (compile_where (.sub c o q b)) =
      countQ c + countQ o + countQ (compile_select q) := by
  show countQ (wrapS c ++ " " ++ o ++ " (" ++ compile_select q ++ ")") = _
  simp only [countQ_append, countQ_wrapS]
  have h1 : countQ " " = 0 := by decide
  have h2 : countQ " (" = 0 := by decide
  have h3 : countQ ")" = 0 := by decide
  omega

theorem countQ_cw_insub (n : Bool) (c : String) (q : BuilderState)
    (b : String) :
    countQ (compile_where (.insub n c q b)) =
      countQ c + countQ (compile_select q) := by
  show countQ (wrapS c ++ (if n then " not in (" else " in (") ++
    compile_select q ++ ")") = _
  simp only [countQ_append, countQ_wrapS]
  have h1 : countQ (if n then " not in (" else " in (") = 0 := by
    cases n <;> decide
  have h2 : countQ ")" = 0 := by decide
  omega

theorem countQ_cw_existsCl (n : Bool) (q : BuilderState) (b : String) :
    countQ (compile_where (.existsCl n q b)) =
      countQ (compile_select q) := by
  show countQ ((if n then "not exists (" else "exists (") ++
    compile_select q ++ ")") = _
  simp only [countQ_append]
  have h1 : countQ (if n then "not exists (" else "exists (") = 0 := by
    cases n <;> decide
  have h2 : countQ ")" = 0 := by decide
  omega

theorem countQ_compile_join (jty table : String) (sub : BuilderState) :
    countQ (compile_join (.mk jty table sub)) =
      countQ jty + countQ table + countQ (compile_wheres sub.wheres) := by
  cases sub with
  | mk sc j w u =>
    show countQ (" " ++ jty ++ " join " ++ wrapS table ++
      (if w.isEmpty then "" else " on " ++ compile_wheres_inner w)) = _
    simp only [countQ_append, countQ_wrapS]
    have h1 : countQ " " = 0 := by decide
    have h2 : countQ " join " = 0 := by decide
    have h3 : countQ (if w.isEmpty then ""
        else " on " ++ compile_wheres_inner w) =
        countQ (compile_wheres w) := by
      split
      · rename_i hw
        rw [List.isEmpty_iff] at hw
        subst hw
        decide
      · rw [countQ_append, countQ_compile_wheres_inner]
        have : countQ " on " = 0 := by decide
        omega
    rw [h3]
    show _ = _ + _ + countQ (compile_wheres w)
    omega

theorem countQ_compile_union (all : Bool) (q : BuilderState) :
    countQ (compile_union (.mk all q)) = countQ (compile_select q) := by
  show countQ ((if all then " union all " else " union ") ++
    compile_select q) = _
  rw [countQ_append]
  have h1 : countQ (if all then " union all " else " union ") = 0 := by
    cases all <;> decide
  omega

theorem countQ_compile_having_basic (c : String) (o v : Value) (b : String) :
    countQ (compile_having (.basic c o v b)) =
      countQ c + countQ o.data + countQ (parameter v) := by
  show countQ (wrapS c ++ " " ++ o.data ++ " " ++ parameter v) = _
  simp only [countQ_append, countQ_wrapS]
  have h1 : countQ " " = 0 := by decide
  omega

theorem countQ_compile_order_byCol (c d : String) :
    countQ (compile_order (.byCol c d)) = countQ c + countQ d := by
  show countQ (wrapS c ++ " " ++ d) = _
  simp only [countQ_append, countQ_wrapS]
  have h1 : countQ " " = 0 := by decide
  omega

theorem inv_init : Inv initB := by
  constructor <;> decide

theorem countQ_compile_select_eq (s : BuilderState) (hI : Inv s) :
    countQ (compile_select s) = (get_bindings s).length := by
  obtain ⟨h1, h2, h3, h4, h5, h6, h7, h8, h9⟩ := hI
  rw [get_bindings_eq]
  simp only [List.length_append]
  cases s with
  | mk sc j w u =>
    show countQ (compile_columns sc ++ compile_from sc ++ compile_joins j ++
      compile_wheres w ++ compile_groups sc ++ compile_havings sc.havings ++
      compile_orders sc.orders ++ compile_limit sc.limit ++
      compile_offset sc.offset ++
      (if u.isEmpty then ""
       else compile_unions u ++ compile_orders sc.union_orders ++
         compile_limit sc.union_limit ++
         compile_offset sc.union_offset)) = _
    simp only [countQ_append, countQ_compile_limit, countQ_compile_offset]
    simp only [BuilderState.sc, BuilderState.joins, BuilderState.wheres,
      BuilderState.unions] at h1 h2 h3 h4 h5 h6 h7 h8 h9
    have hun : countQ (if u.isEmpty then ""
        else compile_unions u ++ compile_orders sc.union_orders ++
          compile_limit sc.union_limit ++
          compile_offset sc.union_offset) =
        sc.bindings.union.length := by
      split
      · rename_i hu
        rw [List.isEmpty_iff] at hu
        subst hu
        simp only [show compile_unions [] = "" from rfl] at h7
        have : countQ "" = 0 := by decide
        omega
      · simp only [countQ_append, countQ_compile_limit,
          countQ_compile_offset, h6, h7]
        omega
    simp only [BuilderState.sc]
    rw [hun]
    omega


theorem inv_push_where_gen (sc : Scalars) (j : List JoinCl)
    (w : List WhereCl) (u : List UnionCl) (cl : WhereCl) (vs : List Value)
    (hI : Inv (.mk sc j w u))
    (hb : countQ (WhereCl.boolean cl) = 0)
    (hcl : countQ (compile_where cl) = vs.length) :
    Inv (.mk { sc with bindings :=
        { sc.bindings with whereb := sc.bindings.whereb ++ vs } }
      j (w ++ [cl]) u) := by
  obtain ⟨h1, h2, h3, h4, h5, h6, h7, h8, h9⟩ := hI
  simp only [BuilderState.sc, BuilderState.joins, BuilderState.wheres,
    BuilderState.unions] at h1 h2 h3 h4 h5 h6 h7 h8 h9
  constructor <;>
    simp only [BuilderState.sc, BuilderState.joins, BuilderState.wheres,
      BuilderState.unions, compile_columns, compile_from, compile_groups] <;>
    simp only [compile_columns, compile_from, compile_groups] at h1 h8 h9
  · exact h1
  · exact h2
  · rw [countQ_compile_wheres_append _ _ hb, hcl, List.length_append]
    omega
  · exact h4
  · exact h5
  · exact h6
  · exact h7
  · exact h8
  · exact h9

theorem inv_push_having_gen (sc : Scalars) (j : List JoinCl)
    (w : List WhereCl) (u : List UnionCl) (cl : HavingCl) (vs : List Value)
    (hI : Inv (.mk sc j w u))
    (hb : countQ (HavingCl.boolean cl) = 0)
    (hcl : countQ (compile_having cl) = vs.length) :
    Inv (.mk { sc with havings := sc.havings ++ [cl], bindings :=
        { sc.bindings with having := sc.bindings.having ++ vs } }
      j w u) := by
  obtain ⟨h1, h2, h3, h4, h5, h6, h7, h8, h9⟩ := hI
  simp only [BuilderState.sc, BuilderState.joins, BuilderState.wheres,
    BuilderState.unions] at h1 h2 h3 h4 h5 h6 h7 h8 h9
  constructor <;>
    simp only [BuilderState.sc, BuilderState.joins, BuilderState.wheres,
      BuilderState.unions, compile_columns, compile_from, compile_groups] <;>
    simp only [compile_columns, compile_from, compile_groups] at h1 h8 h9
  · exact h1
  · exact h2
  · exact h3
  · rw [countQ_compile_havings_append _ _ hb, hcl, List.length_append]
    omega
  · exact h5
  · exact h6
  · exact h7
  · exact h8
  · exact h9

theorem inv_push_join_gen (sc : Scalars) (j : List JoinCl)
    (w : List WhereCl) (u : List UnionCl) (jc : JoinCl) (vs : List Value)
    (hI : Inv (.mk sc j w u))
    (hcl : countQ (compile_join jc) = vs.length) :
    Inv (.mk { sc with bindings :=
        { sc.bindings with join := sc.bindings.join ++ vs } }
      (j ++ [jc]) w u) := by
  obtain ⟨h1, h2, h3, h4, h5, h6, h7, h8, h9⟩ := hI
  simp only [BuilderState.sc, BuilderState.joins, BuilderState.wheres,
    BuilderState.unions] at h1 h2 h3 h4 h5 h6 h7 h8 h9
  constructor <;>
    simp only [BuilderState.sc, BuilderState.joins, BuilderState.wheres,
      BuilderState.unions, compile_columns, compile_from, compile_groups] <;>
    simp only [compile_columns, compile_from, compile_groups] at h1 h8 h9
  · exact h1
  · rw [compile_joins_append, countQ_append, hcl, List.length_append]
    omega
  · exact h3
  · exact h4
  · exact h5
  · exact h6
  · exact h7
  · exact h8
  · exact h9

theorem inv_push_union_gen (sc : Scalars) (j : List JoinCl)
    (w : List WhereCl) (u : List UnionCl) (uc : UnionCl) (vs : List Value)
    (hI : Inv (.mk sc j w u))
    (hcl : countQ (compile_union uc) = vs.length) :
    Inv (.mk { sc with bindings :=
        { sc.bindings with union := sc.bindings.union ++ vs } }
      j w (u ++ [uc])) := by
  obtain ⟨h1, h2, h3, h4, h5, h6, h7, h8, h9⟩ := hI
  simp only [BuilderState.sc, BuilderState.joins, BuilderState.wheres,
    BuilderState.unions] at h1 h2 h3 h4 h5 h6 h7 h8 h9
  constructor <;>
    simp only [BuilderState.sc, BuilderState.joins, BuilderState.wheres,
      BuilderState.unions, compile_columns, compile_from, compile_groups] <;>
    simp only [compile_columns, compile_from, compile_groups] at h1 h8 h9
  · exact h1
  · exact h2
  · exact h3
  · exact h4
  · exact h5
  · exact h6
  · rw [compile_unions_append, countQ_append, hcl, List.length_append]
    omega
  · exact h8
  · exact h9


theorem add_bindings_cons (s : BuilderState) (v : Value) (l : List Value)
    (ty : String) :
    add_bindings s (v :: l) ty = add_bindings (add_binding s v ty) l ty := by
  cases s with
  | mk sc j w u => rfl

theorem add_bindings_nil (s : BuilderState) (ty : String) :
    add_bindings s [] ty = s := by
  cases s with
  | mk sc j w u => rfl

theorem where_in_foldl_eq (vals : List Value) (s1 : BuilderState) :
    vals.foldl (fun acc v => if is_expression v then acc
      else add_binding acc v "where") s1 =
    add_bindings s1 (vals.filter (fun v => !is_expression v)) "where" := by
  induction vals generalizing s1 with
  | nil =>
    rw [List.filter_nil, add_bindings_nil]
    rfl
  | cons v t ih =>
    by_cases he : is_expression v
    · simp only [List.foldl_cons]
      rw [if_pos he, List.filter_cons, if_neg (by simp [he])]
      exact ih s1
    · have heb : is_expression v = false := by simpa using he
      simp only [List.foldl_cons]
      rw [if_neg (by simp [heb]), List.filter_cons,
        if_pos (by simp [heb]), add_bindings_cons]
      exact ih (add_binding s1 v "where")

theorem sum_parameter_eq_filter_length (vals : List Value)
    (h : ∀ v ∈ vals, is_expression v = true → countQ v.data = 0) :
    (vals.map (fun v => countQ (parameter v))).sum =
      (vals.filter (fun v => !is_expression v)).length := by
  induction vals with
  | nil => rfl
  | cons v t ih =>
    have iht := ih (fun x hx hex => h x (List.mem_cons_of_mem v hx) hex)
    simp only [List.map_cons, List.sum_cons, List.filter_cons]
    rw [countQ_parameter]
    by_cases he : is_expression v
    · rw [if_pos he, h v (List.mem_cons_self v t) he,
        if_neg (by simp [he])]
      omega
    · rw [if_neg he, if_pos (by simp [he]), List.length_cons]
      omega

theorem inv_where_null (s : BuilderState) (c b : String) (n : Bool)
    (hc : countQ c = 0) (hb : countQ b = 0) (hI : Inv s) :
    Inv (where_null s c b n) := by
  cases s with
  | mk sc j w u =>
    have step := inv_push_where_gen sc j w u (.nullCl n c b) [] hI hb
      (by simp [countQ_cw_nullCl, hc])
    rw [List.append_nil] at step
    exact step

theorem inv_where_column (s : BuilderState) (f o s2 b : String)
    (hf : countQ f = 0) (ho : countQ o = 0) (hs2 : countQ s2 = 0)
    (hb : countQ b = 0) (hI : Inv s) :
    Inv (where_column s f o s2 b) := by
  cases s with
  | mk sc j w u =>
    have hro : countQ (if invalid_operator o then "=" else o) = 0 := by
      split
      · decide
      · exact ho
    have hrs : countQ (if invalid_operator o then o else s2) = 0 := by
      split
      · exact ho
      · exact hs2
    have step := inv_push_where_gen sc j w u
      (.columnCompare f (if invalid_operator o then "=" else o)
        (if invalid_operator o then o else s2) b) [] hI hb
      (by simp [countQ_cw_columnCompare, hf, hro, hrs])
    rw [List.append_nil] at step
    exact step

theorem inv_where_raw (s : BuilderState) (sql : String) (bnd : List Value)
    (b : String) (hsql : countQ sql = bnd.length) (hb : countQ b = 0)
    (hI : Inv s) : Inv (where_raw s sql bnd b) := by
  cases s with
  | mk sc j w u =>
    have step := inv_push_where_gen sc j w u (.raw sql b) bnd hI hb
      (by rw [countQ_cw_raw]; exact hsql)
    show Inv (BuilderState.mk
      { sc with bindings := addBindings sc.bindings bnd "where" } j
      (w ++ [WhereCl.raw sql b]) u)
    rw [addBindings_where]
    exact step

theorem inv_where_between (s : BuilderState) (c : String) (vals : List Value)
    (b : String) (n : Bool) (hlen : vals.length = 2) (hc : countQ c = 0)
    (hb : countQ b = 0) (hI : Inv s) :
    Inv (where_between s c vals b n) := by
  cases s with
  | mk sc j w u =>
    have step := inv_push_where_gen sc j w u (.between c b n) vals hI hb
      (by rw [countQ_cw_between, hc, hlen])
    show Inv (BuilderState.mk
      { sc with bindings := addBindings sc.bindings vals "where" } j
      (w ++ [WhereCl.between c b n]) u)
    rw [addBindings_where]
    exact step

theorem inv_where_in (s : BuilderState) (c : String) (vals : List Value)
    (b : String) (n : Bool) (hc : countQ c = 0) (hb : countQ b = 0)
    (hv : ∀ v ∈ vals, is_expression v = true → countQ v.data = 0)
    (hI : Inv s) : Inv (where_in s c vals b n) := by
  cases s with
  | mk sc j w u =>
    have hcl : countQ (compile_where (.inList n c vals b)) =
        (vals.filter (fun v => !is_expression v)).length := by
      by_cases hvv : vals = []
      · subst hvv
        rw [countQ_cw_inList_nil]
        rfl
      · rw [countQ_cw_inList n c vals b hvv,
          sum_parameter_eq_filter_length vals hv, hc]
        omega
    have step := inv_push_where_gen sc j w u (.inList n c vals b)
      (vals.filter (fun v => !is_expression v)) hI hb hcl
    show Inv (vals.foldl (fun acc v => if is_expression v then acc
      else add_binding acc v "where")
      (BuilderState.mk sc j (w ++ [WhereCl.inList n c vals b]) u))
    rw [where_in_foldl_eq]
    show Inv (BuilderState.mk
      { sc with
        bindings := addBindings sc.bindings (vals.filter (fun v => !is_expression v)) "where" }
      j (w ++ [WhereCl.inList n c vals b]) u)
    rw [addBindings_where]
    exact step

theorem inv_add_date_based_where (s : BuilderState) (dt c o : String)
    (v : Value) (b : String) (hdt : countQ dt = 0) (hc : countQ c = 0)
    (ho : countQ o = 0) (hb : countQ b = 0) (hv : is_expression v = false)
    (hI : Inv s) : Inv (add_date_based_where s dt c o v b) := by
  cases s with
  | mk sc j w u =>
    have hcl : countQ (compile_where (.dateBased dt c o v b)) =
        ([v] : List Value).length := by
      rw [countQ_cw_dateBased, countQ_parameter, if_neg (by simp [hv])]
      simp [hdt, hc, ho]
    have step := inv_push_where_gen sc j w u (.dateBased dt c o v b) [v]
      hI hb hcl
    exact step


theorem countQ_truefalse (x : Value) :
    countQ (if x = boolV true then "true" else "false") = 0 := by
  split <;> decide

/-- The shape of the state a successful `where_null` call produces, as
one pushed clause and its (empty) binding contribution. -/
theorem where'_null_spec (sc : Scalars) (j : List JoinCl) (w : List WhereCl)
    (u : List UnionCl) (c b : String) (x : Bool) (hc : countQ c = 0) :
    ∃ (cl : WhereCl) (vs : List Value),
      where_null (.mk sc j w u) c b x = .mk { sc with bindings :=
        { sc.bindings with whereb := sc.bindings.whereb ++ vs } }
        j (w ++ [cl]) u ∧
      WhereCl.boolean cl = b ∧ countQ (compile_where cl) = vs.length ∧
      (∀ x ∈ vs, is_expression x = false) := by
  refine ⟨.nullCl x c b, [], ?_, rfl, ?_, ?_⟩
  · rw [List.append_nil]
    rfl
  · simp [countQ_cw_nullCl, hc]
  · intro x hx
    simp at hx

/-- The shape of the state the clause-pushing tail of `Builder::where`
produces: one basic clause and its zero-or-one binding contribution. -/
theorem where'_push_spec (sc : Scalars) (j : List JoinCl) (w : List WhereCl)
    (u : List UnionCl) (c : String) (ro rv : Value) (b : String)
    (hc : countQ c = 0) (hro : countQ ro.data = 0)
    (hrv : is_expression rv = true → countQ rv.data = 0) :
    ∃ (cl : WhereCl) (vs : List Value),
      (if is_expression rv then
        pushWhere (.mk sc j w u) (.basic c ro rv b)
      else add_binding (pushWhere (.mk sc j w u) (.basic c ro rv b)) rv
        "where") = .mk { sc with bindings :=
        { sc.bindings with whereb := sc.bindings.whereb ++ vs } }
        j (w ++ [cl]) u ∧
      WhereCl.boolean cl = b ∧ countQ (compile_where cl) = vs.length ∧
      (∀ x ∈ vs, is_expression x = false) := by
  by_cases he : is_expression rv = true
  · refine ⟨.basic c ro rv b, [], ?_, rfl, ?_, ?_⟩
    · rw [if_pos he, List.append_nil]
      rfl
    · rw [countQ_cw_basic, countQ_parameter, if_pos he, hrv he, hc, hro]
      rfl
    · intro x hx
      simp at hx
  · refine ⟨.basic c ro rv b, [rv], ?_, rfl, ?_, ?_⟩
    · rw [if_neg he]
      rfl
    · rw [countQ_cw_basic, countQ_parameter, if_neg he, hc, hro]
      rfl
    · intro x hx
      rw [List.mem_singleton] at hx
      subst hx
      simpa using he

theorem where'_ok_spec (sc : Scalars) (j : List JoinCl) (w : List WhereCl)
    (u : List UnionCl) (c : String) (o v : Value) (b : String)
    (s' : BuilderState)
    (hc : countQ c = 0) (ho : countQ o.data = 0)
    (hv : is_expression v = true → countQ v.data = 0)
    (h : where' (.mk sc j w u) c o v b = .ok s') :
    ∃ (cl : WhereCl) (vs : List Value),
      s' = .mk { sc with bindings :=
        { sc.bindings with whereb := sc.bindings.whereb ++ vs } }
        j (w ++ [cl]) u ∧
      WhereCl.boolean cl = b ∧ countQ (compile_where cl) = vs.length ∧
      (∀ x ∈ vs, is_expression x = false) := by
  have hioeq : invalid_operator (strV "=").data = false := by decide
  by_cases hud : (v.data == "" && b == "and") = true
  · simp only [where', prepare_value_and_operator, hud, if_true, hioeq,
      Bool.false_eq_true, if_false] at h
    by_cases hemp : emptyV o = true
    · rw [if_pos hemp, Except.ok.injEq] at h
      subst h
      exact where'_null_spec sc j w u c b _ hc
    · rw [if_neg hemp, Except.ok.injEq] at h
      subst h
      split
      · rename_i hjson
        exact where'_push_spec sc j w u c (strV "=")
          ⟨VarType.expression, if o = boolV true then "true" else "false"⟩
          b hc (by decide) (fun _ => countQ_truefalse o)
      · exact where'_push_spec sc j w u c (strV "=") o b hc (by decide)
          (fun _ => ho)
  · simp only [where', prepare_value_and_operator, hud,
      Bool.false_eq_true, if_false] at h
    by_cases hiv : invalid_operator_and_value o v = true
    · rw [if_pos hiv] at h
      simp at h
    · rw [if_neg hiv] at h
      by_cases hop : invalid_operator o.data = true
      · simp only [hop, if_true, hioeq, Bool.false_eq_true, if_false] at h
        by_cases hemp : emptyV o = true
        · rw [if_pos hemp, Except.ok.injEq] at h
          subst h
          exact where'_null_spec sc j w u c b _ hc
        · rw [if_neg hemp, Except.ok.injEq] at h
          subst h
          split
          · rename_i hjson
            exact where'_push_spec sc j w u c (strV "=")
              ⟨VarType.expression, if o = boolV true then "true" else "false"⟩
              b hc (by decide) (fun _ => countQ_truefalse o)
          · exact where'_push_spec sc j w u c (strV "=") o b hc (by decide)
              (fun _ => ho)
      · simp only [hop, Bool.false_eq_true, if_false] at h
        by_cases hemp : emptyV v = true
        · rw [if_pos hemp, Except.ok.injEq] at h
          subst h
          exact where'_null_spec sc j w u c b _ hc
        · rw [if_neg hemp, Except.ok.injEq] at h
          subst h
          split
          · rename_i hjson
            exact where'_push_spec sc j w u c o
              ⟨VarType.expression, if v = boolV true then "true" else "false"⟩
              b hc ho (fun _ => countQ_truefalse v)
          · exact where'_push_spec sc j w u c o v b hc ho hv


theorem inv_where' (s : BuilderState) (c : String) (o v : Value)
    (b : String) (s' : BuilderState)
    (hc : countQ c = 0) (ho : countQ o.data = 0) (hb : countQ b = 0)
    (hv : is_expression v = true → countQ v.data = 0)
    (h : where' s c o v b = .ok s') (hI : Inv s) : Inv s' := by
  cases s with
  | mk sc j w u =>
    obtain ⟨cl, vs, heq, hbq, hcnt, hne⟩ :=
      where'_ok_spec sc j w u c o v b s' hc ho hv h
    subst heq
    exact inv_push_where_gen sc j w u cl vs hI (by rw [hbq]; exact hb) hcnt

/-- The shape of the state the clause-pushing tail of `Builder::having`
produces: one basic having clause and its zero-or-one binding
contribution. -/
theorem having_push_spec (sc : Scalars) (j : List JoinCl) (w : List WhereCl)
    (u : List UnionCl) (c : String) (ro rv : Value) (b : String)
    (hc : countQ c = 0) (hro : countQ ro.data = 0)
    (hrv : is_expression rv = true → countQ rv.data = 0) :
    ∃ (cl : HavingCl) (vs : List Value),
      (if is_expression rv then
        withSc (BuilderState.mk sc j w u) (fun sc =>
          { sc with havings := sc.havings ++ [.basic c ro rv b] })
      else add_binding (withSc (BuilderState.mk sc j w u) (fun sc =>
          { sc with havings := sc.havings ++ [.basic c ro rv b] })) rv
        "having") = .mk { sc with havings := sc.havings ++ [cl], bindings :=
        { sc.bindings with having := sc.bindings.having ++ vs } }
        j w u ∧
      HavingCl.boolean cl = b ∧ countQ (compile_having cl) = vs.length ∧
      (∀ x ∈ vs, is_expression x = false) := by
  by_cases he : is_expression rv = true
  · refine ⟨.basic c ro rv b, [], ?_, rfl, ?_, ?_⟩
    · rw [if_pos he, List.append_nil]
      rfl
    · rw [countQ_compile_having_basic, countQ_parameter, if_pos he, hrv he,
        hc, hro]
      rfl
    · intro x hx
      simp at hx
  · refine ⟨.basic c ro rv b, [rv], ?_, rfl, ?_, ?_⟩
    · rw [if_neg he]
      rfl
    · rw [countQ_compile_having_basic, countQ_parameter, if_neg he, hc, hro]
      rfl
    · intro x hx
      rw [List.mem_singleton] at hx
      subst hx
      simpa using he

theorem having_ok_spec (sc : Scalars) (j : List JoinCl) (w : List WhereCl)
    (u : List UnionCl) (c : String) (o v : Value) (b : String)
    (s' : BuilderState)
    (hc : countQ c = 0) (ho : countQ o.data = 0)
    (hv : is_expression v = true → countQ v.data = 0)
    (h : having (.mk sc j w u) c o v b = .ok s') :
    ∃ (cl : HavingCl) (vs : List Value),
      s' = .mk { sc with havings := sc.havings ++ [cl], bindings :=
        { sc.bindings with having := sc.bindings.having ++ vs } }
        j w u ∧
      HavingCl.boolean cl = b ∧ countQ (compile_having cl) = vs.length ∧
      (∀ x ∈ vs, is_expression x = false) := by
  have hioeq : invalid_operator (strV "=").data = false := by decide
  by_cases hud : (v.data == "" && b == "and") = true
  · simp only [having, prepare_value_and_operator, hud, if_true, hioeq,
      Bool.false_eq_true, if_false] at h
    rw [Except.ok.injEq] at h
    subst h
    exact having_push_spec sc j w u c (strV "=") o b hc (by decide)
      (fun _ => ho)
  · simp only [having, prepare_value_and_operator, hud,
      Bool.false_eq_true, if_false] at h
    by_cases hiv : invalid_operator_and_value o v = true
    · rw [if_pos hiv] at h
      simp at h
    · rw [if_neg hiv] at h
      by_cases hop : invalid_operator o.data = true
      · simp only [hop, if_true, hioeq, Bool.false_eq_true, if_false] at h
        rw [Except.ok.injEq] at h
        subst h
        exact having_push_spec sc j w u c (strV "=") o b hc (by decide)
          (fun _ => ho)
      · simp only [hop, Bool.false_eq_true, if_false] at h
        rw [Except.ok.injEq] at h
        subst h
        exact having_push_spec sc j w u c o v b hc ho hv

theorem inv_having (s : BuilderState) (c : String) (o v : Value)
    (b : String) (s' : BuilderState)
    (hc : countQ c = 0) (ho : countQ o.data = 0) (hb : countQ b = 0)
    (hv : is_expression v = true → countQ v.data = 0)
    (h : having s c o v b = .ok s') (hI : Inv s) : Inv s' := by
  cases s with
  | mk sc j w u =>
    obtain ⟨cl, vs, heq, hbq, hcnt, hne⟩ :=
      having_ok_spec sc j w u c o v b s' hc ho hv h
    subst heq
    exact inv_push_having_gen sc j w u cl vs hI (by rw [hbq]; exact hb) hcnt

theorem inv_where_date_part (s : BuilderState) (dt c o : String) (v : Value)
    (b : String) (s' : BuilderState)
    (hdt : countQ dt = 0) (hc : countQ c = 0) (ho : countQ o = 0)
    (hb : countQ b = 0) (hv : is_expression v = false)
    (h : where_date_part s dt c o v b = .ok s') (hI : Inv s) : Inv s' := by
  by_cases hud : (v.data == "" && b == "and") = true
  · simp only [where_date_part, prepare_value_and_operator, hud, if_true,
      Except.map, Except.ok.injEq] at h
    subst h
    exact inv_add_date_based_where s dt c (strV "=").data (strV o) b hdt hc
      (by decide) hb (by rfl) hI
  · simp only [where_date_part, prepare_value_and_operator, hud,
      Bool.false_eq_true, if_false] at h
    by_cases hiv : invalid_operator_and_value (strV o) v = true
    · rw [if_pos hiv] at h
      simp [Except.map] at h
    · rw [if_neg hiv] at h
      simp only [Except.map, Except.ok.injEq] at h
      subst h
      exact inv_add_date_based_where s dt c (strV o).data v b hdt hc ho hb
        hv hI


theorem countQ_compile_groups_sum (sc : Scalars) :
    countQ (compile_groups sc) =
      (sc.groups.map (fun v => countQ v.data)).sum := by
  unfold compile_groups
  split
  · rename_i h
    rw [List.isEmpty_iff] at h
    rw [h]
    rfl
  · rw [countQ_append, countQ_sepJoin ", " (by decide), List.map_map]
    have h0 : countQ " group by " = 0 := by decide
    rw [h0, Nat.zero_add]
    have : (countQ ∘ wrap) = (fun v => countQ v.data) := by
      funext v
      exact countQ_wrap v
    rw [this]

theorem inv_limit (s : BuilderState) (n : Int) (hI : Inv s) :
    Inv (limit s n) := by
  cases s with
  | mk sc j w u =>
    unfold limit
    split
    · show Inv (BuilderState.mk
        (if u.isEmpty then { sc with limit := n }
         else { sc with union_limit := n }) j w u)
      split <;>
        exact ⟨hI.sel, hI.jn, hI.whr, hI.hav, hI.ord, hI.uord, hI.uni,
          hI.frm, hI.grp⟩
    · exact hI

theorem inv_offset (s : BuilderState) (n : Int) (hI : Inv s) :
    Inv (offset s n) := by
  cases s with
  | mk sc j w u =>
    show Inv (BuilderState.mk
      (if u.isEmpty then { sc with offset := max 0 n }
       else { sc with union_offset := max 0 n }) j w u)
    split <;>
      exact ⟨hI.sel, hI.jn, hI.whr, hI.hav, hI.ord, hI.uord, hI.uni,
        hI.frm, hI.grp⟩

theorem inv_from_table (s : BuilderState) (t : String) (ht : countQ t = 0)
    (hI : Inv s) : Inv (from_table s t) := by
  cases s with
  | mk sc j w u =>
    refine ⟨hI.sel, hI.jn, hI.whr, hI.hav, hI.ord, hI.uord, hI.uni, ?_,
      hI.grp⟩
    show countQ (compile_from { sc with from_ := t }) = 0
    unfold compile_from
    split
    · rfl
    · rw [countQ_append, countQ_wrapS, ht]
      rfl

theorem inv_group_by (s : BuilderState) (g : List Value)
    (hg : ∀ v ∈ g, countQ v.data = 0) (hI : Inv s) :
    Inv (group_by s g) := by
  cases s with
  | mk sc j w u =>
    refine ⟨hI.sel, hI.jn, hI.whr, hI.hav, hI.ord, hI.uord, hI.uni, hI.frm,
      ?_⟩
    show countQ (compile_groups { sc with groups := sc.groups ++ g }) = 0
    rw [countQ_compile_groups_sum]
    show ((sc.groups ++ g).map (fun v => countQ v.data)).sum = 0
    rw [List.map_append, List.sum_append]
    have h9 : countQ (compile_groups sc) = 0 := hI.grp
    rw [countQ_compile_groups_sum] at h9
    rw [h9]
    have : (g.map (fun v => countQ v.data)).sum = 0 := by
      apply List.sum_eq_zero
      intro x hx
      rw [List.mem_map] at hx
      obtain ⟨v, hv, hvx⟩ := hx
      rw [← hvx]
      exact hg v hv
    rw [this]

theorem inv_select (s : BuilderState) (cols : List Value)
    (hsel : s.sc.bindings.select = [])
    (hcols : ∀ v ∈ cols, countQ v.data = 0) (hI : Inv s) :
    Inv (select s cols) := by
  cases s with
  | mk sc j w u =>
    have hsel' : sc.bindings.select = [] := hsel
    refine ⟨?_, hI.jn, hI.whr, hI.hav, hI.ord, hI.uord, hI.uni, hI.frm,
      hI.grp⟩
    show countQ (compile_columns { sc with columns := cols }) =
      sc.bindings.select.length
    rw [hsel']
    by_cases hag : sc.aggregate = []
    · rw [countQ_compile_columns_noagg _ (by simp [hag])]
      show (cols.map (fun v => countQ v.data)).sum = [].length
      have : (cols.map (fun v => countQ v.data)).sum = 0 := by
        apply List.sum_eq_zero
        intro x hx
        rw [List.mem_map] at hx
        obtain ⟨v, hv, hvx⟩ := hx
        rw [← hvx]
        exact hcols v hv
      rw [this]
      rfl
    · have h1 : countQ (compile_columns sc) = sc.bindings.select.length :=
        hI.sel
      rw [hsel'] at h1
      unfold compile_columns at h1 ⊢
      rw [if_neg (by rw [List.isEmpty_iff]; exact hag)] at h1
      rw [if_neg (by rw [List.isEmpty_iff]; exact hag)]
      exact h1

theorem inv_select_raw (s : BuilderState) (e : String) (bnd : List Value)
    (hag : s.sc.aggregate = []) (hcq : countQ e = bnd.length)
    (hI : Inv s) : Inv (select_raw s e bnd) := by
  cases s with
  | mk sc j w u =>
    have hag' : sc.aggregate = [] := hag
    have hshape : select_raw (BuilderState.mk sc j w u) e bnd =
        .mk { sc with columns := sc.columns ++ [strV e], bindings :=
          { sc.bindings with select := sc.bindings.select ++ bnd } }
        j w u := by
      unfold select_raw add_select withSc
      by_cases hbnd : bnd = []
      · subst hbnd
        rw [if_neg (by simp), List.append_nil]
        rfl
      · rw [if_pos (by simp [hbnd])]
        show add_bindings (BuilderState.mk
          { sc with columns := sc.columns ++ [strV e] } j w u) bnd "select"
          = _
        show BuilderState.mk { sc with
          columns := sc.columns ++ [strV e],
          bindings := addBindings sc.bindings bnd "select" } j w u = _
        rw [addBindings_select]
    rw [hshape]
    refine ⟨?_, hI.jn, hI.whr, hI.hav, hI.ord, hI.uord, hI.uni, hI.frm,
      hI.grp⟩
    show countQ (compile_columns { sc with columns := sc.columns ++ [strV e], bindings := { sc.bindings with select := sc.bindings.select ++ bnd } }) = (sc.bindings.select ++ bnd).length
    rw [countQ_compile_columns_noagg _ (by simpa using hag')]
    show ((sc.columns ++ [strV e]).map (fun v => countQ v.data)).sum = _
    rw [List.map_append, List.sum_append, List.length_append]
    have h1 : countQ (compile_columns sc) = sc.bindings.select.length :=
      hI.sel
    rw [countQ_compile_columns_noagg _ hag'] at h1
    rw [h1]
    show _ + ((countQ e) + 0) = _
    rw [hcq]
    omega

theorem inv_having_raw (s : BuilderState) (sql : String) (bnd : List Value)
    (b : String) (hsql : countQ sql = bnd.length) (hb : countQ b = 0)
    (hI : Inv s) : Inv (having_raw s sql bnd b) := by
  cases s with
  | mk sc j w u =>
    have step := inv_push_having_gen sc j w u (.raw sql b) bnd hI hb hsql
    unfold having_raw withSc
    by_cases hbnd : bnd = []
    · subst hbnd
      rw [if_neg (by simp)]
      rw [List.append_nil] at step
      exact step
    · rw [if_pos (by simp [hbnd])]
      show Inv (add_bindings (BuilderState.mk
        { sc with havings := sc.havings ++ [HavingCl.raw sql b] } j w u)
        bnd "having")
      show Inv (BuilderState.mk { sc with
        havings := sc.havings ++ [HavingCl.raw sql b],
        bindings := addBindings sc.bindings bnd "having" } j w u)
      rw [addBindings_having]
      exact step

theorem inv_order_by (s : BuilderState) (c d : String) (hc : countQ c = 0)
    (hI : Inv s) : Inv (order_by s c d) := by
  cases s with
  | mk sc j w u =>
    have hx : (List.map (fun o => countQ (compile_order o))
        [OrderCl.byCol c (if d == "asc" then "asc" else "desc")]).sum
        = 0 := by
      simp only [List.map_cons, List.map_nil, List.sum_cons, List.sum_nil]
      rw [countQ_compile_order_byCol, hc]
      split <;> decide
    show Inv (BuilderState.mk
      (if u.isEmpty then { sc with orders := sc.orders ++
        [OrderCl.byCol c (if d == "asc" then "asc" else "desc")] }
       else { sc with union_orders := sc.union_orders ++
        [OrderCl.byCol c (if d == "asc" then "asc" else "desc")] }) j w u)
    split
    · refine ⟨hI.sel, hI.jn, hI.whr, hI.hav, ?_, hI.uord, hI.uni, hI.frm,
        hI.grp⟩
      show countQ (compile_orders (sc.orders ++ [_])) =
        sc.bindings.order.length
      rw [countQ_compile_orders, List.map_append, List.sum_append]
      have h5 : countQ (compile_orders sc.orders) =
        sc.bindings.order.length := hI.ord
      rw [countQ_compile_orders] at h5
      rw [h5, hx]
      omega
    · refine ⟨hI.sel, hI.jn, hI.whr, hI.hav, hI.ord, ?_, hI.uni, hI.frm,
        hI.grp⟩
      show countQ (compile_orders (sc.union_orders ++ [_])) = 0
      rw [countQ_compile_orders, List.map_append, List.sum_append]
      have h6 : countQ (compile_orders sc.union_orders) = 0 := hI.uord
      rw [countQ_compile_orders] at h6
      rw [h6, hx]

theorem inv_order_byraw (s : BuilderState) (sql : String) (bnd : List Value)
    (hsql : countQ sql = bnd.length)
    (hu : s.unions.isEmpty = false → bnd = [] ∧ countQ sql = 0)
    (hI : Inv s) : Inv (order_byraw s sql bnd) := by
  cases s with
  | mk sc j w u =>
    have hu' : u.isEmpty = false → bnd = [] ∧ countQ sql = 0 := hu
    by_cases hue : u.isEmpty = true
    · show Inv (add_bindings (BuilderState.mk
        (if u.isEmpty then { sc with orders := sc.orders ++ [OrderCl.raw sql] }
         else { sc with union_orders := sc.union_orders ++ [OrderCl.raw sql] })
        j w u) bnd "order")
      rw [if_pos hue]
      show Inv (BuilderState.mk { sc with
        orders := sc.orders ++ [OrderCl.raw sql],
        bindings := addBindings sc.bindings bnd "order" } j w u)
      rw [addBindings_order]
      refine ⟨hI.sel, hI.jn, hI.whr, hI.hav, ?_, hI.uord, hI.uni, hI.frm,
        hI.grp⟩
      show countQ (compile_orders (sc.orders ++ [OrderCl.raw sql])) =
        (sc.bindings.order ++ bnd).length
      rw [countQ_compile_orders, List.map_append, List.sum_append,
        List.length_append]
      have h5 : countQ (compile_orders sc.orders) =
        sc.bindings.order.length := hI.ord
      rw [countQ_compile_orders] at h5
      rw [h5]
      show _ + (countQ sql + 0) = _
      rw [hsql]
      omega
    · obtain ⟨hbnd, hsq⟩ := hu' (by simpa using hue)
      subst hbnd
      show Inv (add_bindings (BuilderState.mk
        (if u.isEmpty then { sc with orders := sc.orders ++ [OrderCl.raw sql] }
         else { sc with union_orders := sc.union_orders ++ [OrderCl.raw sql] })
        j w u) [] "order")
      rw [add_bindings_nil, if_neg hue]
      refine ⟨hI.sel, hI.jn, hI.whr, hI.hav, hI.ord, ?_, hI.uni, hI.frm,
        hI.grp⟩
      show countQ (compile_orders (sc.union_orders ++ [OrderCl.raw sql]))
        = 0
      rw [countQ_compile_orders, List.map_append, List.sum_append]
      have h6 : countQ (compile_orders sc.union_orders) = 0 := hI.uord
      rw [countQ_compile_orders] at h6
      rw [h6]
      show 0 + (countQ sql + 0) = 0
      rw [hsq]

theorem inv_clear (s : BuilderState) (hI : Inv s) : Inv (clear s) := by
  cases s with
  | mk sc j w u =>
    refine ⟨?_, ?_, ?_, ?_, ?_, ?_, ?_, ?_, ?_⟩
    · rfl
    · rfl
    · rfl
    · rfl
    · rfl
    · rfl
    · rfl
    · exact hI.frm
    · rfl

theorem inv_set_aggregate (s : BuilderState) (f : String)
    (cols : List Value) (hsel : s.sc.bindings.select = [])
    (hf : countQ f = 0) (hcols : ∀ v ∈ cols, countQ v.data = 0)
    (hI : Inv s) : Inv (set_aggregate s f cols) := by
  cases s with
  | mk sc j w u =>
    have hsel' : sc.bindings.select = [] := hsel
    have hagg : ∀ (sc2 : Scalars), sc2.aggregate = [("function", f),
        ("columns", sepJoin ", " (cols.map (fun v => v.data)))] →
        countQ (compile_columns sc2) = 0 := by
      intro sc2 h2
      unfold compile_columns
      rw [h2]
      rw [if_neg (by simp)]
      have hv1 : aggValue [("function", f),
          ("columns", sepJoin ", " (cols.map (fun v => v.data)))]
          "function" = f := rfl
      have hv2 : aggValue [("function", f),
          ("columns", sepJoin ", " (cols.map (fun v => v.data)))]
          "columns" = sepJoin ", " (cols.map (fun v => v.data)) := rfl
      rw [hv1, hv2]
      simp only [countQ_append]
      rw [countQ_sepJoin ", " (by decide), List.map_map]
      have hs : ((countQ ∘ fun v => v.data) : Value → Nat) =
          (fun v => countQ v.data) := rfl
      rw [hs]
      have hz : (cols.map (fun v => countQ v.data)).sum = 0 := by
        apply List.sum_eq_zero
        intro x hx
        rw [List.mem_map] at hx
        obtain ⟨v, hv, hvx⟩ := hx
        rw [← hvx]
        exact hcols v hv
      rw [hz, hf]
      decide
    show Inv (BuilderState.mk (if ({ sc with aggregate := [("function", f), ("columns", sepJoin ", " (cols.map (fun v => v.data)))] } : Scalars).groups = [] then { sc with aggregate := [("function", f), ("columns", sepJoin ", " (cols.map (fun v => v.data)))], orders := [], bindings := setBucketEmpty sc.bindings "order" } else { sc with aggregate := [("function", f), ("columns", sepJoin ", " (cols.map (fun v => v.data)))] }) j w u)
    split
    · refine ⟨?_, hI.jn, hI.whr, hI.hav, ?_, hI.uord, hI.uni, hI.frm,
        hI.grp⟩
      · show countQ (compile_columns _) =
          (setBucketEmpty sc.bindings "order").select.length
        have hb : (setBucketEmpty sc.bindings "order").select =
            sc.bindings.select := rfl
        rw [hb, hsel']
        exact hagg _ rfl
      · rfl
    · refine ⟨?_, hI.jn, hI.whr, hI.hav, hI.ord, hI.uord, hI.uni, hI.frm,
        hI.grp⟩
      show countQ (compile_columns _) = sc.bindings.select.length
      rw [hsel']
      exact hagg _ rfl


theorem inv_add_nested_where_query (s q : BuilderState) (b : String)
    (hb : countQ b = 0) (hI : Inv s) (hq : Inv q)
    (hsel : q.sc.bindings.select = []) (hjn : q.sc.bindings.join = [])
    (hhav : q.sc.bindings.having = []) (hord : q.sc.bindings.order = [])
    (huni : q.sc.bindings.union = []) :
    Inv (add_nested_where_query s q b) := by
  cases s with
  | mk sc j w u =>
    unfold add_nested_where_query
    split
    · exact hI
    · have hgb : get_bindings q = q.sc.bindings.whereb := by
        rw [get_bindings_eq, hsel, hjn, hhav, hord, huni]
        simp
      have hcl : countQ (compile_where (.nested q b)) =
          (get_bindings q).length := by
        rw [countQ_cw_nested, hq.whr, hgb]
      have step := inv_push_where_gen sc j w u (.nested q b)
        (get_bindings q) hI hb hcl
      show Inv (BuilderState.mk { sc with bindings := addBindings sc.bindings (get_bindings q) "where" } j (w ++ [WhereCl.nested q b]) u)
      rw [addBindings_where]
      exact step

theorem inv_where_sub (s : BuilderState) (c o : String) (q : BuilderState)
    (b : String) (hc : countQ c = 0) (ho : countQ o = 0)
    (hb : countQ b = 0) (hI : Inv s) (hq : Inv q) :
    Inv (where_sub s c o q b) := by
  cases s with
  | mk sc j w u =>
    have hcl : countQ (compile_where (.sub c o q b)) =
        (get_bindings q).length := by
      rw [countQ_cw_sub, countQ_compile_select_eq q hq, hc, ho]
      omega
    have step := inv_push_where_gen sc j w u (.sub c o q b)
      (get_bindings q) hI hb hcl
    show Inv (BuilderState.mk { sc with bindings := addBindings sc.bindings (get_bindings q) "where" } j (w ++ [WhereCl.sub c o q b]) u)
    rw [addBindings_where]
    exact step

theorem inv_where_insub (s : BuilderState) (c : String) (q : BuilderState)
    (b : String) (n : Bool) (hc : countQ c = 0) (hb : countQ b = 0)
    (hI : Inv s) (hq : Inv q) : Inv (where_insub s c q b n) := by
  cases s with
  | mk sc j w u =>
    have hcl : countQ (compile_where (.insub n c q b)) =
        (get_bindings q).length := by
      rw [countQ_cw_insub, countQ_compile_select_eq q hq, hc]
      omega
    have step := inv_push_where_gen sc j w u (.insub n c q b)
      (get_bindings q) hI hb hcl
    show Inv (BuilderState.mk { sc with bindings := addBindings sc.bindings (get_bindings q) "where" } j (w ++ [WhereCl.insub n c q b]) u)
    rw [addBindings_where]
    exact step

theorem inv_add_where_exists_query (s q : BuilderState) (b : String)
    (n : Bool) (hb : countQ b = 0) (hI : Inv s) (hq : Inv q) :
    Inv (add_where_exists_query s q b n) := by
  cases s with
  | mk sc j w u =>
    have hcl : countQ (compile_where (.existsCl n q b)) =
        (get_bindings q).length := by
      rw [countQ_cw_existsCl, countQ_compile_select_eq q hq]
    have step := inv_push_where_gen sc j w u (.existsCl n q b)
      (get_bindings q) hI hb hcl
    show Inv (BuilderState.mk { sc with bindings := addBindings sc.bindings (get_bindings q) "where" } j (w ++ [WhereCl.existsCl n q b]) u)
    rw [addBindings_where]
    exact step

theorem inv_union_ (s q : BuilderState) (all : Bool) (hI : Inv s)
    (hq : Inv q) : Inv (union_ s q all) := by
  cases s with
  | mk sc j w u =>
    have hcl : countQ (compile_union (.mk all q)) =
        (get_bindings q).length := by
      rw [countQ_compile_union, countQ_compile_select_eq q hq]
    have step := inv_push_union_gen sc j w u (.mk all q)
      (get_bindings q) hI hcl
    show Inv (BuilderState.mk { sc with bindings := addBindings sc.bindings (get_bindings q) "union" } j w (u ++ [UnionCl.mk all q]))
    rw [addBindings_union]
    exact step

theorem inv_join (s : BuilderState) (table first oper second jty : String)
    (isW : Bool) (s' : BuilderState)
    (hjty : countQ jty = 0) (htb : countQ table = 0) (hf : countQ first = 0)
    (ho : countQ oper = 0) (hs2 : countQ second = 0)
    (h : join s table first oper second jty isW = .ok s') (hI : Inv s) :
    Inv s' := by
  have main : ∀ (sub : BuilderState) (vs : List Value),
      sub.sc.bindings.select = [] → sub.sc.bindings.join = [] →
      sub.sc.bindings.whereb = vs → sub.sc.bindings.having = [] →
      sub.sc.bindings.order = [] → sub.sc.bindings.union = [] →
      countQ (compile_wheres sub.wheres) = vs.length →
      s' = pushJoin (add_bindings s (get_bindings sub) "join")
        (.mk jty table sub) → Inv s' := by
    intro sub vs hbsel hbjn hbw hbhav hbord hbuni hwcount heq
    subst heq
    cases s with
    | mk sc j w u =>
      have hgb : get_bindings sub = vs := by
        rw [get_bindings_eq, hbsel, hbjn, hbw, hbhav, hbord, hbuni]
        simp
      have hcl : countQ (compile_join (.mk jty table sub)) = vs.length := by
        rw [countQ_compile_join, hjty, htb, hwcount]
        omega
      have step := inv_push_join_gen sc j w u (.mk jty table sub) vs hI
        hcl
      show Inv (pushJoin (add_bindings (BuilderState.mk sc j w u)
        (get_bindings sub) "join") (JoinCl.mk jty table sub))
      rw [hgb]
      show Inv (BuilderState.mk { sc with bindings := addBindings sc.bindings vs "join" } (j ++ [JoinCl.mk jty table sub]) w u)
      rw [addBindings_join]
      exact step
  unfold join at h
  cases isW with
  | true =>
    simp only [if_true] at h
    cases hsub : where' initB first (strV oper) (strV second) "and" with
    | error e =>
      rw [hsub] at h
      simp at h
    | ok sub =>
      rw [hsub] at h
      simp only [Except.ok.injEq] at h
      obtain ⟨cl, vs, hsubeq, hbq, hcnt, hne⟩ :=
        where'_ok_spec initScalars [] [] [] first (strV oper) (strV second)
          "and" sub hf ho (fun _ => hs2) hsub
      subst hsubeq
      refine main _ vs ?_ ?_ ?_ ?_ ?_ ?_ ?_ h.symm
      · rfl
      · rfl
      · rfl
      · rfl
      · rfl
      · rfl
      · have hb0 : countQ (WhereCl.boolean cl) = 0 := by
          rw [hbq]
          decide
        have happ := countQ_compile_wheres_append [] cl hb0
        show countQ (compile_wheres ([] ++ [cl])) = vs.length
        rw [happ, hcnt]
        have hz : countQ (compile_wheres ([] : List WhereCl)) = 0 := by
          decide
        omega
  | false =>
    simp only [Bool.false_eq_true, if_false] at h
    simp only [Except.ok.injEq] at h
    refine main (onJoin initB first oper second) [] rfl rfl rfl rfl rfl rfl
      ?_ h.symm
    have hb0 : countQ (WhereCl.boolean (WhereCl.columnCompare first
        (if invalid_operator oper then "=" else oper)
        (if invalid_operator oper then oper else second) "and")) = 0 := by
      show countQ "and" = 0
      decide
    have happ := countQ_compile_wheres_append []
      (WhereCl.columnCompare first
        (if invalid_operator oper then "=" else oper)
        (if invalid_operator oper then oper else second) "and") hb0
    show countQ (compile_wheres ([] ++ [WhereCl.columnCompare first
      (if invalid_operator oper then "=" else oper)
      (if invalid_operator oper then oper else second) "and"])) = _
    have hro : countQ (if invalid_operator oper then "=" else oper) = 0 := by
      split
      · decide
      · exact ho
    have hrs : countQ (if invalid_operator oper then oper else second)
        = 0 := by
      split
      · exact ho
      · exact hs2
    have hz : countQ (compile_wheres ([] : List WhereCl)) = 0 := by decide
    rw [happ, countQ_cw_columnCompare, hf, hro, hrs, hz]
    rfl


mutual

theorem inv_wfstep : ∀ (op : Op) (s s' : BuilderState), Inv s →
    WFStep s op s' → Inv s'
  | .select cols, s, s', hI, hW => by
    obtain ⟨h1, h2, h3⟩ := hW
    subst h3
    exact inv_select s cols h1 h2 hI
  | .selectRaw e bnd, s, s', hI, hW => by
    obtain ⟨h1, h2, h3⟩ := hW
    subst h3
    exact inv_select_raw s e bnd h1 h2 hI
  | .fromTable t, s, s', hI, hW => by
    obtain ⟨h1, h2⟩ := hW
    subst h2
    exact inv_from_table s t h1 hI
  | .joinOp table first oper second jty isW, s, s', hI, hW => by
    obtain ⟨h1, h2, h3, h4, h5, h6⟩ := hW
    exact inv_join s table first oper second jty isW s' h1 h2 h3 h4 h5 h6 hI
  | .whereBasic c o v b, s, s', hI, hW => by
    obtain ⟨h1, h2, h3, h4, h5⟩ := hW
    exact inv_where' s c o v b s' h1 h2 h3 h4 h5 hI
  | .whereColumnOp f o s2 b, s, s', hI, hW => by
    obtain ⟨h1, h2, h3, h4, h5⟩ := hW
    subst h5
    exact inv_where_column s f o s2 b h1 h2 h3 h4 hI
  | .whereRawOp sql bnd b, s, s', hI, hW => by
    obtain ⟨h1, h2, h3⟩ := hW
    subst h3
    exact inv_where_raw s sql bnd b h1 h2 hI
  | .whereInOp c vals b n, s, s', hI, hW => by
    obtain ⟨h1, h2, h3, h4⟩ := hW
    subst h4
    exact inv_where_in s c vals b n h1 h2 h3 hI
  | .whereNullOp c b n, s, s', hI, hW => by
    obtain ⟨h1, h2, h3⟩ := hW
    subst h3
    exact inv_where_null s c b n h1 h2 hI
  | .whereBetweenOp c vals b n, s, s', hI, hW => by
    obtain ⟨h1, h2, h3, h4⟩ := hW
    subst h4
    exact inv_where_between s c vals b n h1 h2 h3 hI
  | .whereDatePartOp dt c o v b, s, s', hI, hW => by
    obtain ⟨h1, h2, h3, h4, h5, h6⟩ := hW
    exact inv_where_date_part s dt c o v b s' h1 h2 h3 h4 h5 h6 hI
  | .whereNestedOp ops b, s, s', hI, hW => by
    obtain ⟨h1, sub, hrun, e1, e2, e3, e4, e5, heq⟩ := hW
    subst heq
    exact inv_add_nested_where_query s sub b h1 hI
      (inv_wfrun ops initB sub inv_init hrun) e1 e2 e3 e4 e5
  | .whereSubOp c o ops b, s, s', hI, hW => by
    obtain ⟨h1, h2, h3, sub, hrun, heq⟩ := hW
    subst heq
    exact inv_where_sub s c o sub b h1 h2 h3 hI
      (inv_wfrun ops initB sub inv_init hrun)
  | .whereInsubOp c ops b n, s, s', hI, hW => by
    obtain ⟨h1, h2, sub, hrun, heq⟩ := hW
    subst heq
    exact inv_where_insub s c sub b n h1 h2 hI
      (inv_wfrun ops initB sub inv_init hrun)
  | .whereExistsOp ops b n, s, s', hI, hW => by
    obtain ⟨h1, sub, hrun, heq⟩ := hW
    subst heq
    exact inv_add_where_exists_query s sub b n h1 hI
      (inv_wfrun ops initB sub inv_init hrun)
  | .groupByOp g, s, s', hI, hW => by
    obtain ⟨h1, h2⟩ := hW
    subst h2
    exact inv_group_by s g h1 hI
  | .havingOp c o v b, s, s', hI, hW => by
    obtain ⟨h1, h2, h3, h4, h5⟩ := hW
    exact inv_having s c o v b s' h1 h2 h3 h4 h5 hI
  | .havingRawOp sql bnd b, s, s', hI, hW => by
    obtain ⟨h1, h2, h3⟩ := hW
    subst h3
    exact inv_having_raw s sql bnd b h1 h2 hI
  | .orderByOp c d, s, s', hI, hW => by
    obtain ⟨h1, h2⟩ := hW
    subst h2
    exact inv_order_by s c d h1 hI
  | .orderByRawOp sql bnd, s, s', hI, hW => by
    obtain ⟨h1, h2, h3⟩ := hW
    subst h3
    exact inv_order_byraw s sql bnd h1 h2 hI
  | .limitOp n, s, s', hI, hW => by
    subst hW
    exact inv_limit s n hI
  | .offsetOp n, s, s', hI, hW => by
    subst hW
    exact inv_offset s n hI
  | .unionOp ops all, s, s', hI, hW => by
    obtain ⟨sub, hrun, heq⟩ := hW
    subst heq
    exact inv_union_ s sub all hI (inv_wfrun ops initB sub inv_init hrun)
  | .clearOp, s, s', hI, hW => by
    subst hW
    exact inv_clear s hI
  | .setAggregateOp f cols, s, s', hI, hW => by
    obtain ⟨h1, h2, h3, h4⟩ := hW
    subst h4
    exact inv_set_aggregate s f cols h1 h2 h3 hI

theorem inv_wfrun : ∀ (ops : List Op) (s s' : BuilderState), Inv s →
    WFRunL s ops s' → Inv s'
  | [], s, s', hI, hW => by
    have h : s' = s := hW
    subst h
    exact hI
  | op :: ops, s, s'', hI, hW => by
    obtain ⟨s1, hstep, hrun⟩ := hW
    exact inv_wfrun ops s1 s'' (inv_wfstep op s s1 hI hstep) hrun

end


/-! ## Claim theorems -/

/-- C5: for every builder and column, `where_in` with an empty value
list pushes exactly one in-clause, leaves every binding bucket
untouched (zero bindings contributed), and that clause compiles to the
statically-false literal "0 = 1"; the not-in variant compiles to the
statically-true literal "1 = 1".  Compilation is the total function
`compile_where` and cannot fail on the empty list. -/
theorem C5_where_in_empty (s : BuilderState) (c b : String) :
    where_in s c [] b false = pushWhere s (.inList false c [] b) ∧
    where_in s c [] b true = pushWhere s (.inList true c [] b) ∧
    (where_in s c [] b false).sc.bindings = s.sc.bindings ∧
    (where_in s c [] b true).sc.bindings = s.sc.bindings ∧
    compile_where (.inList false c [] b) = "0 = 1" ∧
    compile_where (.inList true c [] b) = "1 = 1" := by
  cases s with
  | mk sc j w u => exact ⟨rfl, rfl, rfl, rfl, rfl, rfl⟩

/-- C6: while the union list is empty, `order_by`, `order_byraw`,
`limit` and `offset` write the base order list and base limit/offset
slots; once at least one union exists they write the union-specific
order list and union limit/offset slots instead and leave the base
slots unchanged. -/
theorem C6_union_routing (s : BuilderState) (c d sql : String)
    (bnd : List Value) (n : Int) :
    (s.unions = [] →
      (order_by s c d).sc.orders = s.sc.orders ++
        [OrderCl.byCol c (if d == "asc" then "asc" else "desc")] ∧
      (order_by s c d).sc.union_orders = s.sc.union_orders ∧
      (order_byraw s sql bnd).sc.orders = s.sc.orders ++
        [OrderCl.raw sql] ∧
      (order_byraw s sql bnd).sc.union_orders = s.sc.union_orders ∧
      (0 ≤ n → (limit s n).sc.limit = n ∧
        (limit s n).sc.union_limit = s.sc.union_limit) ∧
      (offset s n).sc.offset = max 0 n ∧
      (offset s n).sc.union_offset = s.sc.union_offset) ∧
    (s.unions ≠ [] →
      (order_by s c d).sc.orders = s.sc.orders ∧
      (order_by s c d).sc.union_orders = s.sc.union_orders ++
        [OrderCl.byCol c (if d == "asc" then "asc" else "desc")] ∧
      (order_byraw s sql bnd).sc.orders = s.sc.orders ∧
      (order_byraw s sql bnd).sc.union_orders = s.sc.union_orders ++
        [OrderCl.raw sql] ∧
      (0 ≤ n → (limit s n).sc.limit = s.sc.limit ∧
        (limit s n).sc.union_limit = n) ∧
      (offset s n).sc.offset = s.sc.offset ∧
      (offset s n).sc.union_offset = max 0 n) := by
  cases s with
  | mk sc j w u =>
    constructor
    · intro hu
      have hue : u.isEmpty = true := by
        rw [List.isEmpty_iff]
        exact hu
      refine ⟨?_, ?_, ?_, ?_, ?_, ?_, ?_⟩
      · simp [order_by, withSc, hue, BuilderState.unions, BuilderState.sc]
      · simp [order_by, withSc, hue, BuilderState.unions, BuilderState.sc]
      · simp [order_byraw, withSc, add_bindings, hue, addBindings_order,
          BuilderState.unions, BuilderState.sc]
      · simp [order_byraw, withSc, add_bindings, hue, addBindings_order,
          BuilderState.unions, BuilderState.sc]
      · intro hn
        unfold limit
        rw [if_pos (by omega)]
        constructor
        · simp [withSc, hue, BuilderState.unions, BuilderState.sc]
        · simp [withSc, hue, BuilderState.unions, BuilderState.sc]
      · simp [offset, withSc, hue, BuilderState.unions, BuilderState.sc]
      · simp [offset, withSc, hue, BuilderState.unions, BuilderState.sc]
    · intro hu
      have hu' : u ≠ [] := hu
      have hue : u.isEmpty = false := by
        cases u with
        | nil => exact absurd rfl hu'
        | cons a t => rfl
      refine ⟨?_, ?_, ?_, ?_, ?_, ?_, ?_⟩
      · simp [order_by, withSc, hue, BuilderState.unions, BuilderState.sc]
      · simp [order_by, withSc, hue, BuilderState.unions, BuilderState.sc]
      · simp [order_byraw, withSc, add_bindings, hue, addBindings_order,
          BuilderState.unions, BuilderState.sc]
      · simp [order_byraw, withSc, add_bindings, hue, addBindings_order,
          BuilderState.unions, BuilderState.sc]
      · intro hn
        unfold limit
        rw [if_pos (by omega)]
        constructor
        · simp [withSc, hue, BuilderState.unions, BuilderState.sc]
        · simp [withSc, hue, BuilderState.unions, BuilderState.sc]
      · simp [offset, withSc, hue, BuilderState.unions, BuilderState.sc]
      · simp [offset, withSc, hue, BuilderState.unions, BuilderState.sc]

/-- C6 witness: the routing facts evaluated on a builder without
unions and on one holding a single union clause. -/
theorem C6_union_routing_witness :
    (order_by initB "name" "asc").sc.orders =
      [OrderCl.byCol "name" "asc"] ∧
    (limit oneUnionState 5).sc.limit = -1 ∧
    (limit oneUnionState 5).sc.union_limit = 5 ∧
    (order_by oneUnionState "name" "asc").sc.orders = [] := by
  have hne : oneUnionState.unions ≠ [] := by
    rw [show oneUnionState.unions = [UnionCl.mk false initB] from rfl]
    exact List.cons_ne_nil _ _
  have h1 := (C6_union_routing initB "name" "asc" "x" [] 5).1 rfl
  have h2 := (C6_union_routing oneUnionState "name" "asc" "x" [] 5).2 hne
  refine ⟨?_, ?_, ?_, ?_⟩
  · simpa using h1.1
  · simpa using ((h2.2.2.2.2.1 (by omega)).1)
  · simpa using ((h2.2.2.2.2.1 (by omega)).2)
  · simpa using h2.1

/-- C7 counterexample: `clear` does not reset `from_`, so a cleared
builder whose table was set differs from a freshly constructed one. -/
theorem C7_counterexample :
    (clear (from_table initB "users")).sc.from_ = "users" ∧
    initB.sc.from_ = "" ∧
    clear (from_table initB "users") ≠ initB := by
  refine ⟨rfl, rfl, ?_⟩
  intro h
  have h2 : ("users" : String) = "" := congrArg (fun s => s.sc.from_) h
  exact absurd h2 (by decide)

/-- C7 (amended): after `clear()` the builder equals a freshly
constructed builder in every member except `from_`, which keeps its
previous value: `clear s` is the fresh builder with `from_` set to the
old table. -/
theorem C7_amended (s : BuilderState) :
    clear s = from_table initB s.sc.from_ := by
  cases s with
  | mk sc j w u => rfl

/-- C8: the binding list `insert` hands to the connection comes from
the first record only, while the compiled multi-row insert carries one
placeholder group per record: for the two-record batch
`[{a: 1}, {a: 2}]` the SQL holds two placeholders but only `[1]` is
handed over. -/
theorem C8_insert_first_record_only :
    insert_bindings [[("a", intV 1)], [("a", intV 2)]] = [intV 1] ∧
    compile_insert (from_table initB "t") [[("a", intV 1)], [("a", intV 2)]]
      = "insert into \"t\" (\"a\") values (?), (?)" ∧
    countQ (compile_insert (from_table initB "t")
      [[("a", intV 1)], [("a", intV 2)]]) = 2 ∧
    insert (from_table initB "t") [[("a", intV 1)], [("a", intV 2)]]
      (fun sql bnds => decide (countQ sql = 2 ∧ bnds = [intV 1]))
      = true := by
  refine ⟨rfl, rfl, by decide, by decide⟩


/-- C1 counterexample: after `where_between` with an empty value list
the compiled SQL carries two placeholder markers while the flattened
binding sequence is empty, so the one-to-one correspondence claimed for
every builder state fails. -/
theorem C1_counterexample :
    (get_bindings (where_between initB "a" [] "and" false)).length = 0 ∧
    countQ (compile_select (where_between initB "a" [] "and" false)) = 2 ∧
    (get_bindings (where_between initB "a" [] "and" false)).length ≠
      countQ (compile_select (where_between initB "a" [] "and" false)) := by
  refine ⟨rfl, by decide, by decide⟩

/-- C1 (amended): `get_bindings` always returns the concatenation of
the buckets in the fixed order select, join, where, having, order,
union, preserving per-bucket insertion order; and for every builder
state reached by a well-formed run of the fluent mutators the number of
placeholder markers in the compiled SQL equals the length of that flat
sequence, section by section in the same bucket order. -/
theorem C1_amended (ops : List Op) (s : BuilderState)
    (h : WFRunL initB ops s) :
    get_bindings s =
      s.sc.bindings.select ++ s.sc.bindings.join ++ s.sc.bindings.whereb ++
      s.sc.bindings.having ++ s.sc.bindings.order ++ s.sc.bindings.union ∧
    countQ (compile_select s) = (get_bindings s).length ∧
    countQ (compile_columns s.sc) = s.sc.bindings.select.length ∧
    countQ (compile_joins s.joins) = s.sc.bindings.join.length ∧
    countQ (compile_wheres s.wheres) = s.sc.bindings.whereb.length ∧
    countQ (compile_havings s.sc.havings) = s.sc.bindings.having.length ∧
    countQ (compile_orders s.sc.orders) = s.sc.bindings.order.length ∧
    countQ (compile_unions s.unions) = s.sc.bindings.union.length := by
  have hI := inv_wfrun ops initB s inv_init h
  exact ⟨get_bindings_eq s, countQ_compile_select_eq s hI, hI.sel, hI.jn,
    hI.whr, hI.hav, hI.ord, hI.uni⟩

/-- C1 witness: the amended correspondence evaluated on the concrete
run from "users" where age > 18. -/
theorem C1_amended_witness :
    countQ (compile_select usersAgeState) =
      (get_bindings usersAgeState).length := by
  have hrun : WFRunL initB [Op.fromTable "users",
      Op.whereBasic "age" (strV ">") (intV 18) "and"] usersAgeState :=
    ⟨from_table initB "users", ⟨by decide, rfl⟩,
     usersAgeState, ⟨by decide, by decide, by decide, by decide, rfl⟩, rfl⟩
  exact (C1_amended [Op.fromTable "users",
    Op.whereBasic "age" (strV ">") (intV 18) "and"] usersAgeState hrun).2.1

/-- The basic where mutator never puts a raw-expression value into the
"where" bucket: every value the call adds is non-raw. -/
theorem where'_no_raw_binding (s : BuilderState) (c : String) (o v : Value)
    (b : String) (s' : BuilderState) (h : where' s c o v b = .ok s') :
    ∀ x ∈ s'.sc.bindings.whereb,
      x ∈ s.sc.bindings.whereb ∨ is_expression x = false := by
  cases s with
  | mk sc j w u =>
    have push : ∀ (ro rv : Value),
        ∀ x ∈ ((if is_expression rv then
          pushWhere (BuilderState.mk sc j w u) (.basic c ro rv b)
        else add_binding (pushWhere (BuilderState.mk sc j w u)
          (.basic c ro rv b)) rv "where") :
          BuilderState).sc.bindings.whereb,
        x ∈ sc.bindings.whereb ∨ is_expression x = false := by
      intro ro rv x hx
      by_cases he : is_expression rv = true
      · rw [if_pos he] at hx
        exact Or.inl hx
      · rw [if_neg he] at hx
        have hx2 : x ∈ sc.bindings.whereb ++ [rv] := hx
        rw [List.mem_append] at hx2
        cases hx2 with
        | inl hmem => exact Or.inl hmem
        | inr hmem =>
          rw [List.mem_singleton] at hmem
          subst hmem
          exact Or.inr (by simpa using he)
    have hioeq : invalid_operator (strV "=").data = false := by decide
    by_cases hud : (v.data == "" && b == "and") = true
    · simp only [where', prepare_value_and_operator, hud, if_true, hioeq,
        Bool.false_eq_true, if_false] at h
      by_cases hemp : emptyV o = true
      · rw [if_pos hemp, Except.ok.injEq] at h
        subst h
        intro x hx
        exact Or.inl hx
      · rw [if_neg hemp, Except.ok.injEq] at h
        subst h
        split
        · exact push _ _
        · exact push _ _
    · simp only [where', prepare_value_and_operator, hud,
        Bool.false_eq_true, if_false] at h
      by_cases hiv : invalid_operator_and_value o v = true
      · rw [if_pos hiv] at h
        simp at h
      · rw [if_neg hiv] at h
        by_cases hop : invalid_operator o.data = true
        · simp only [hop, if_true, hioeq, Bool.false_eq_true,
            if_false] at h
          by_cases hemp : emptyV o = true
          · rw [if_pos hemp, Except.ok.injEq] at h
            subst h
            intro x hx
            exact Or.inl hx
          · rw [if_neg hemp, Except.ok.injEq] at h
            subst h
            split
            · exact push _ _
            · exact push _ _
        · simp only [hop, Bool.false_eq_true, if_false] at h
          by_cases hemp : emptyV v = true
          · rw [if_pos hemp, Except.ok.injEq] at h
            subst h
            intro x hx
            exact Or.inl hx
          · rw [if_neg hemp, Except.ok.injEq] at h
            subst h
            split
            · exact push _ _
            · exact push _ _

/-- The having mutator never puts a raw-expression value into the
"having" bucket. -/
theorem having_no_raw_binding (s : BuilderState) (c : String) (o v : Value)
    (b : String) (s' : BuilderState) (h : having s c o v b = .ok s') :
    ∀ x ∈ s'.sc.bindings.having,
      x ∈ s.sc.bindings.having ∨ is_expression x = false := by
  cases s with
  | mk sc j w u =>
    have push : ∀ (ro rv : Value),
        ∀ x ∈ ((if is_expression rv then
          withSc (BuilderState.mk sc j w u) (fun sc =>
            { sc with havings := sc.havings ++ [.basic c ro rv b] })
        else add_binding (withSc (BuilderState.mk sc j w u) (fun sc =>
            { sc with havings := sc.havings ++ [.basic c ro rv b] })) rv
          "having") : BuilderState).sc.bindings.having,
        x ∈ sc.bindings.having ∨ is_expression x = false := by
      intro ro rv x hx
      by_cases he : is_expression rv = true
      · rw [if_pos he] at hx
        exact Or.inl hx
      · rw [if_neg he] at hx
        have hx2 : x ∈ sc.bindings.having ++ [rv] := hx
        rw [List.mem_append] at hx2
        cases hx2 with
        | inl hmem => exact Or.inl hmem
        | inr hmem =>
          rw [List.mem_singleton] at hmem
          subst hmem
          exact Or.inr (by simpa using he)
    have hioeq : invalid_operator (strV "=").data = false := by decide
    by_cases hud : (v.data == "" && b == "and") = true
    · simp only [having, prepare_value_and_operator, hud, if_true, hioeq,
        Bool.false_eq_true, if_false] at h
      rw [Except.ok.injEq] at h
      subst h
      exact push _ _
    · simp only [having, prepare_value_and_operator, hud,
        Bool.false_eq_true, if_false] at h
      by_cases hiv : invalid_operator_and_value o v = true
      · rw [if_pos hiv] at h
        simp at h
      · rw [if_neg hiv] at h
        by_cases hop : invalid_operator o.data = true
        · simp only [hop, if_true, hioeq, Bool.false_eq_true,
            if_false] at h
          rw [Except.ok.injEq] at h
          subst h
          exact push _ _
        · simp only [hop, Bool.false_eq_true, if_false] at h
          rw [Except.ok.injEq] at h
          subst h
          exact push _ _

/-- C2 counterexample: `where_between` and `add_date_based_where`
append raw-expression values to the "where" bucket, contradicting the
claim that a raw value is never added to any bucket by the where-family
mutators. -/
theorem C2_counterexample :
    is_expression (exprV "now()") = true ∧
    (where_between initB "created" [exprV "now()", exprV "now()"] "and"
      false).sc.bindings.whereb = [exprV "now()", exprV "now()"] ∧
    (add_date_based_where initB "date" "created" "=" (exprV "now()")
      "and").sc.bindings.whereb = [exprV "now()"] := ⟨rfl, rfl, rfl⟩

/-- C2 (amended): `where`, `where_in` and `having` never append a
raw-expression value to a bucket; `where_between` and
`add_date_based_where` (hence the date/day/month/year mutators) append
every given value to the "where" bucket unconditionally, raw
expressions included. -/
theorem C2_amended (s : BuilderState) (c : String) (o v : Value)
    (b dt oper : String) (vals : List Value) (n : Bool)
    (s' : BuilderState) :
    (where' s c o v b = .ok s' →
      ∀ x ∈ s'.sc.bindings.whereb,
        x ∈ s.sc.bindings.whereb ∨ is_expression x = false) ∧
    (∀ x ∈ (where_in s c vals b n).sc.bindings.whereb,
        x ∈ s.sc.bindings.whereb ∨ is_expression x = false) ∧
    (having s c o v b = .ok s' →
      ∀ x ∈ s'.sc.bindings.having,
        x ∈ s.sc.bindings.having ∨ is_expression x = false) ∧
    (where_between s c vals b n).sc.bindings.whereb =
      s.sc.bindings.whereb ++ vals ∧
    (add_date_based_where s dt c oper v b).sc.bindings.whereb =
      s.sc.bindings.whereb ++ [v] := by
  refine ⟨fun h => where'_no_raw_binding s c o v b s' h, ?_,
    fun h => having_no_raw_binding s c o v b s' h, ?_, ?_⟩
  · cases s with
    | mk sc j w u =>
      intro x hx
      have hfold : where_in (BuilderState.mk sc j w u) c vals b n =
          add_bindings (pushWhere (BuilderState.mk sc j w u)
            (.inList n c vals b))
            (vals.filter (fun v => !is_expression v)) "where" := by
        show vals.foldl (fun acc v => if is_expression v then acc
          else add_binding acc v "where") _ = _
        rw [where_in_foldl_eq]
      rw [hfold] at hx
      have hx2 : x ∈ sc.bindings.whereb ++
          vals.filter (fun v => !is_expression v) := by
        have hb : (add_bindings (pushWhere (BuilderState.mk sc j w u)
            (.inList n c vals b))
            (vals.filter (fun v => !is_expression v))
            "where").sc.bindings.whereb =
            sc.bindings.whereb ++
              vals.filter (fun v => !is_expression v) := by
          show (addBindings sc.bindings
            (vals.filter (fun v => !is_expression v)) "where").whereb = _
          rw [addBindings_where]
        rw [hb] at hx
        exact hx
      rw [List.mem_append] at hx2
      cases hx2 with
      | inl hmem => exact Or.inl hmem
      | inr hmem =>
        rw [List.mem_filter] at hmem
        exact Or.inr (by simpa using hmem.2)
  · cases s with
    | mk sc j w u =>
      show (addBindings sc.bindings vals "where").whereb = _
      rw [addBindings_where]
      rfl
  · cases s with
    | mk sc j w u => rfl

/-- C2 witness: the non-raw guarantees applied at a concrete state:
a raw value given to `where` is rendered inline and adds nothing to the
bucket. -/
theorem C2_amended_witness :
    (where' initB "flag" (strV "=") (exprV "1") "and" =
      .ok (pushWhere initB (.basic "flag" (strV "=") (exprV "1") "and"))) ∧
    ∀ x ∈ (pushWhere initB
        (.basic "flag" (strV "=") (exprV "1") "and")).sc.bindings.whereb,
      x ∈ initB.sc.bindings.whereb ∨ is_expression x = false := by
  constructor
  · rfl
  · exact (C2_amended initB "flag" (strV "=") (exprV "1") "and" "date" "="
      [] false (pushWhere initB
        (.basic "flag" (strV "=") (exprV "1") "and"))).1 rfl

/-- C3: two-argument `where` calls (value slot empty, connector "and")
are re-interpreted as `(column, "=", value)`; a resolved empty value
short-cuts to a null clause (a not-null clause when the resolved
operator is not `=`) with no binding added; and the type-aware
non-empty integer zero pushes a basic clause with exactly one binding
instead of a null clause. -/
theorem C3_where_shorthand (s : BuilderState) (c : String) (v : Value)
    (b : String) (hv : v.data ≠ "") :
    where' s c v (strV "") "and" = where' s c (strV "=") v "and" ∧
    (∀ w : Value, w.data = "" →
      where' s c w (strV "") "and" = .ok (where_null s c "and" false) ∧
      get_bindings (where_null s c "and" false) = get_bindings s) ∧
    (∀ w : Value, w.data = "" →
      where' s c (strV "<>") w "or" = .ok (where_null s c "or" true)) ∧
    where' s c (strV "=") (intV 0) b =
      .ok (add_binding (pushWhere s (.basic c (strV "=") (intV 0) b))
        (intV 0) "where") ∧
    (add_binding (pushWhere s (.basic c (strV "=") (intV 0) b))
      (intV 0) "where").sc.bindings.whereb =
      s.sc.bindings.whereb ++ [intV 0] := by
  have h0 : (v.data == "") = false := by
    simp [hv]
  refine ⟨?_, ?_, ?_, ?_, ?_⟩
  · have hud1 : (((strV "").data == "") && (("and" : String) == "and"))
        = true := by decide
    have hud2 : ((v.data == "") && (("and" : String) == "and")) = false := by
      rw [h0]
      rfl
    have hiv : invalid_operator_and_value (strV "=") v = false := by
      unfold invalid_operator_and_value
      rw [show ((["=", "<>", "!="].contains (strV "=").data) : Bool) = true
        from by decide]
      simp
    simp only [where', prepare_value_and_operator, hud1, if_true, hud2,
      Bool.false_eq_true, if_false, hiv]
  · intro w hw
    have hud : (((strV "").data == "") && (("and" : String) == "and"))
        = true := by decide
    have hio : invalid_operator (strV "=").data = false := by decide
    have hemp : emptyV w = true := by
      simp [emptyV, hw]
    constructor
    · simp only [where', prepare_value_and_operator, hud, if_true, hio,
        Bool.false_eq_true, if_false]
      rw [if_pos hemp]
      rfl
    · cases s with
      | mk sc j wl u => rfl
  · intro w hw
    have hud : ((w.data == "") && (("or" : String) == "and")) = false := by
      rw [show (("or" : String) == "and") = false from by decide]
      exact Bool.and_false _
    have hiv : invalid_operator_and_value (strV "<>") w = false := by
      unfold invalid_operator_and_value
      rw [show ((["=", "<>", "!="].contains (strV "<>").data) : Bool) = true
        from by decide]
      simp
    have hio : invalid_operator (strV "<>").data = false := by decide
    have hemp : emptyV w = true := by
      simp [emptyV, hw]
    simp only [where', prepare_value_and_operator, hud, Bool.false_eq_true,
      if_false, hiv, hio]
    rw [if_pos hemp]
    rfl
  · have hud : (((intV 0).data == "") && (b == "and")) = false := by
      rw [show ((intV 0).data == "") = false from by decide]
      rfl
    have hiv : invalid_operator_and_value (strV "=") (intV 0) = false := by
      decide
    have hio : invalid_operator (strV "=").data = false := by decide
    have hemp : emptyV (intV 0) = false := by decide
    have hjson : (containsSub c "->" &&
        decide ((intV 0).type = VarType.bool)) = false := by
      rw [show (decide ((intV 0).type = VarType.bool)) = false from by decide]
      exact Bool.and_false _
    have hexp : is_expression (intV 0) = false := by decide
    simp only [where', prepare_value_and_operator, hud, Bool.false_eq_true,
      if_false, hiv, hio, hemp, hjson, hexp]
  · cases s with
    | mk sc j wl u => rfl

/-- C3 witness: the shorthand and null/zero behaviours evaluated at a
concrete builder, column `age`, value `18` and connector `or`. -/
theorem C3_where_shorthand_witness :
    (strV "18").data ≠ "" ∧
    (where' initB "age" (strV "18") (strV "") "and" =
      where' initB "age" (strV "=") (strV "18") "and" ∧
    (∀ w : Value, w.data = "" →
      where' initB "age" w (strV "") "and" =
        .ok (where_null initB "age" "and" false) ∧
      get_bindings (where_null initB "age" "and" false) =
        get_bindings initB) ∧
    (∀ w : Value, w.data = "" →
      where' initB "age" (strV "<>") w "or" =
        .ok (where_null initB "age" "or" true)) ∧
    where' initB "age" (strV "=") (intV 0) "or" =
      .ok (add_binding (pushWhere initB
        (.basic "age" (strV "=") (intV 0) "or")) (intV 0) "where") ∧
    (add_binding (pushWhere initB
      (.basic "age" (strV "=") (intV 0) "or")) (intV 0)
      "where").sc.bindings.whereb =
      initB.sc.bindings.whereb ++ [intV 0]) :=
  ⟨by decide, C3_where_shorthand initB "age" (strV "18") "or" (by decide)⟩

/-- C4: an (operator, value) pair with an empty value, a baseline
operator and an operator outside {=, <>, !=} is a usage error:
`prepare_value_and_operator` (outside the two-argument default) raises
the assertion, `where` propagates the error and appends nothing;
otherwise the pair passes through unchanged, and the two-argument
default substitutes `=`. -/
theorem C4_operator_value_error (s : BuilderState) (c : String)
    (o v : Value) (b : String)
    (hiv : invalid_operator_and_value o v = true)
    (hud : ((v.data == "") && (b == "and")) = false) :
    (v.data = "" ∧ o.data ∈ operators_ ∧
      o.data ≠ "=" ∧ o.data ≠ "<>" ∧ o.data ≠ "!=") ∧
    prepare_value_and_operator v o false =
      .error "Illegal operator and val combination." ∧
    where' s c o v b =
      .error "Illegal operator and val combination." ∧
    (∀ o2 v2 : Value, invalid_operator_and_value o2 v2 = false →
      prepare_value_and_operator v2 o2 false = .ok (v2, o2)) ∧
    (∀ o2 v2 : Value, prepare_value_and_operator v2 o2 true =
      .ok (o2, strV "=")) := by
  refine ⟨?_, ?_, ?_, ?_, ?_⟩
  · have h := hiv
    unfold invalid_operator_and_value at h
    rw [Bool.and_eq_true, Bool.and_eq_true] at h
    obtain ⟨⟨hor, hcont⟩, hnot⟩ := h
    rw [Bool.not_eq_true'] at hnot
    refine ⟨?_, ?_, ?_, ?_, ?_⟩
    · have h1 : (emptyV v || v.data == "") = true := hor
      simp only [emptyV, Bool.or_eq_true, decide_eq_true_eq, beq_iff_eq,
        or_self] at h1
      exact h1
    · simpa using hcont
    · intro he
      rw [he] at hnot
      exact absurd hnot (by decide)
    · intro he
      rw [he] at hnot
      exact absurd hnot (by decide)
    · intro he
      rw [he] at hnot
      exact absurd hnot (by decide)
  · simp [prepare_value_and_operator, hiv]
  · simp only [where', prepare_value_and_operator, hud, Bool.false_eq_true,
      if_false, hiv, if_true]
  · intro o2 v2 h2
    simp [prepare_value_and_operator, h2]
  · intro o2 v2
    rfl

/-- C4 witness: the usage-error behaviour evaluated at the illegal pair
(`<`, empty string) with connector `or`. -/
theorem C4_operator_value_error_witness :
    invalid_operator_and_value (strV "<") (strV "") = true ∧
    (((strV "").data == "") && (("or" : String) == "and")) = false ∧
    (((strV "").data = "" ∧ (strV "<").data ∈ operators_ ∧
      (strV "<").data ≠ "=" ∧ (strV "<").data ≠ "<>" ∧
      (strV "<").data ≠ "!=") ∧
    prepare_value_and_operator (strV "") (strV "<") false =
      .error "Illegal operator and val combination." ∧
    where' initB "age" (strV "<") (strV "") "or" =
      .error "Illegal operator and val combination." ∧
    (∀ o2 v2 : Value, invalid_operator_and_value o2 v2 = false →
      prepare_value_and_operator v2 o2 false = .ok (v2, o2)) ∧
    (∀ o2 v2 : Value, prepare_value_and_operator v2 o2 true =
      .ok (o2, strV "="))) :=
  ⟨by decide, by decide,
    C4_operator_value_error initB "age" (strV "<") (strV "") "or"
      (by decide) (by decide)⟩

/-- C9: against a connection yielding no rows, `aggregate` returns the
default-constructed value (which reads as the integer 0, not an
error) and `numeric_aggregate` returns the integer 0; against a
connection yielding one textual `aggregate` cell, `numeric_aggregate`
coerces it to a floating value exactly when it contains a decimal
point and to an integer otherwise (0 for the empty text). -/
theorem C9_aggregate_defaults (s : BuilderState) (cols : List Value)
    (conn : Conn) (hconn : ∀ q b, conn q b = []) :
    aggregate s "count" cols conn = invalidV ∧
    variable_get_int (aggregate s "count" cols conn) = 0 ∧
    numeric_aggregate s "count" cols conn = intV 0 ∧
    (∀ (f d : String) (conn2 : Conn),
      (∀ q b, conn2 q b = [[("aggregate", strV d)]]) →
      numeric_aggregate s f cols conn2 =
        if d = "" then intV 0
        else if containsSub d "." = true then ⟨VarType.number, d⟩
        else intV (variable_get_int (strV d))) := by
  have h1 : aggregate s "count" cols conn = invalidV := by
    simp only [aggregate, Plain.get, run_select, hconn]
    rfl
  refine ⟨h1, ?_, ?_, ?_⟩
  · rw [h1]
    decide
  · simp only [numeric_aggregate, h1]
    rfl
  · intro f d conn2 hconn2
    have h2 : aggregate s f cols conn2 = strV d := by
      simp only [aggregate, Plain.get, run_select, hconn2]
      rfl
    simp only [numeric_aggregate, h2]
    by_cases hd : d = ""
    · subst hd
      rw [if_pos rfl]
      rfl
    · rw [if_neg hd]
      have hemp : ¬ (emptyV (strV d) = true) := by
        simp [emptyV, strV, hd]
      rw [if_neg hemp]
      rw [if_neg (by simp [strV] : ¬ ((strV d).type ≠ VarType.string))]
      rfl

/-- C9 witness: the aggregate defaults evaluated on the connection
that always returns no rows. -/
theorem C9_aggregate_defaults_witness :
    (∀ q b, (fun (_ : String) (_ : List Value) => ([] : Fetch)) q b
      = []) ∧
    (aggregate initB "count" [] (fun _ _ => []) = invalidV ∧
    variable_get_int (aggregate initB "count" [] (fun _ _ => [])) = 0 ∧
    numeric_aggregate initB "count" [] (fun _ _ => []) = intV 0 ∧
    (∀ (f d : String) (conn2 : Conn),
      (∀ q b, conn2 q b = [[("aggregate", strV d)]]) →
      numeric_aggregate initB f [] conn2 =
        if d = "" then intV 0
        else if containsSub d "." = true then ⟨VarType.number, d⟩
        else intV (variable_get_int (strV d)))) :=
  ⟨fun _ _ => rfl,
   C9_aggregate_defaults initB [] (fun _ _ => []) (fun _ _ => rfl)⟩

/-- C10: `get` restores the stored column list: the builder it returns
is the original builder unchanged, and the rows come from compiling
with the argument columns exactly when the stored list is empty -
otherwise the argument is ignored and the stored list is used. -/
theorem C10_get_frame (s : BuilderState) (cols : List Value)
    (conn : Conn) :
    (Plain.get s cols conn).2 = s ∧
    (s.sc.columns = [] →
      (Plain.get s cols conn).1 = run_select (select s cols) conn) ∧
    (s.sc.columns ≠ [] →
      (Plain.get s cols conn).1 = run_select s conn) := by
  cases s with
  | mk sc j w u =>
    refine ⟨?_, ?_, ?_⟩
    · simp only [Plain.get]
      split <;> rfl
    · intro h
      have h2 : sc.columns = [] := h
      simp only [Plain.get, BuilderState.sc, h2, List.isEmpty_nil, if_true]
    · intro h
      have h2 : sc.columns ≠ [] := h
      have h3 : sc.columns.isEmpty = false := by
        cases hc : sc.columns with
        | nil => exact absurd hc h2
        | cons a t => rfl
      simp only [Plain.get, BuilderState.sc, h3, Bool.false_eq_true, if_false]

/-- C10 witness: the frame property of `get` evaluated on a concrete
populated builder (empty stored column list) and the no-row
connection. -/
theorem C10_get_frame_witness :
    (Plain.get usersAgeState [strV "id"] (fun _ _ => [])).2 =
      usersAgeState ∧
    usersAgeState.sc.columns = [] ∧
    (Plain.get usersAgeState [strV "id"] (fun _ _ => [])).1 =
      run_select (select usersAgeState [strV "id"]) (fun _ _ => []) :=
  ⟨(C10_get_frame usersAgeState [strV "id"] (fun _ _ => [])).1,
   rfl,
   (C10_get_frame usersAgeState [strV "id"] (fun _ _ => [])).2.1 rfl⟩

end Plain
